import Mathlib

/-!
Verification of the clippy lint engine's core detectors against their
natural-language specification.

The development shallowly embeds the relevant parts of
`clippy_lints/src/matches.rs` and `clippy_lints/src/loops.rs`.
External collaborators of the engine (type queries, constant evaluation,
snippet extraction, scope extents) are modelled as explicit function
parameters, matching the spec's "consumed collaborators" section.
-/

namespace Clippy

/-! ## Part 1: the interval-overlap sweep (`matches.rs`, fn `overlapping`) -/

/-- Embeds `SpannedRange<T>` from matches.rs: a span identity plus the
`(start, end)` pair of constant endpoints. `span` is an opaque numeric
identity standing for the source span. -/
structure SpannedRange (T : Type) where
  span : Nat
  node : T × T
  deriving Repr, DecidableEq

/-- Embeds the local `enum Kind<'a, T>` of fn `overlapping`: a sweep event,
either the start or the end boundary of one collected range. -/
inductive SweepKind (T : Type) where
  | start (v : T) (r : SpannedRange T)
  | stop (v : T) (r : SpannedRange T)
  deriving Repr, DecidableEq

namespace SweepKind

/-- Embeds `Kind::value`. -/
def value {T : Type} : SweepKind T → T
  | .start v _ => v
  | .stop v _ => v

/-- Embeds `Kind::range`. -/
def range {T : Type} : SweepKind T → SpannedRange T
  | .start _ r => r
  | .stop _ r => r

end SweepKind

/-- Stable insertion placing an event before all strictly greater values and
after earlier events of equal value; folding this over the event list from the
right yields exactly what Rust's stable `Vec::sort` (ordered by
`Kind::value` alone, per the `Ord` impl in fn `overlapping`) produces. -/
def insertEv (e : SweepKind Int) : List (SweepKind Int) → List (SweepKind Int)
  | [] => [e]
  | f :: fs => if e.value ≤ f.value then e :: f :: fs else f :: insertEv e fs

/-- Stable sort of sweep events by value (model of `values.sort()`). -/
def sortEvents : List (SweepKind Int) → List (SweepKind Int)
  | [] => []
  | e :: es => insertEv e (sortEvents es)

/-- Embeds the consecutive-pair walk of fn `overlapping`
(`values.iter().zip(values.iter().skip(1))` plus the three match arms):
Start-then-End of ranges with equal `node` values is skipped; End-then-Start
at differing values is skipped; everything else returns the pair. -/
def scanPairs : List (SweepKind Int) → Option (SpannedRange Int × SpannedRange Int)
  | a :: b :: rest =>
    match a, b with
    | .start _ ra, .stop _ rb =>
      if ra.node ≠ rb.node then some (ra, rb) else scanPairs (b :: rest)
    | .stop va _, .start vb _ =>
      if va ≠ vb then scanPairs (b :: rest) else some (a.range, b.range)
    | _, _ => some (a.range, b.range)
  | _ => none

/-- Embeds `pub fn overlapping` from matches.rs: push a Start and an End
event per collected range, stable-sort by value, walk consecutive pairs and
return the first pair signalling an overlap. -/
def overlapping (ranges : List (SpannedRange Int)) :
    Option (SpannedRange Int × SpannedRange Int) :=
  scanPairs (sortEvents (ranges.flatMap fun r => [.start r.node.1 r, .stop r.node.2 r]))

/-! ## Part 2: the loop detectors (`loops.rs`)

The HIR fragment the loop detectors inspect is embedded as `Expr` below.
Path resolution (`def_map` / `expect_def`) is carried on the path node
itself as a `Res`; source spans are replaced by collaborator snippet
functions; the desugared for-loop match carries a numeric identity `mid`
standing for the HIR node id (used for the `expr == self.end_expr`
comparison, which in rustc compares node identity). -/

/-- Mutability of a borrow (`hir::Mutability`). -/
inductive Mutab where
  | imm
  | mutb
  deriving Repr, DecidableEq

/-- Binary operator of a compound assignment; the visitors only distinguish
`BiAdd` from everything else. -/
inductive BinOpK where
  | add
  | otherOp
  deriving Repr, DecidableEq

/-- Resolution of a path expression, as the detectors consume it:
`Def::Local`, `Def::Upvar`, `Def::Static`, `Def::Const`, or anything else. -/
inductive Res where
  | localR (id : Nat)
  | upvarR (id : Nat)
  | staticR
  | constR
  | otherR
  deriving Repr, DecidableEq

/-- `ast::RangeLimits`. -/
inductive RangeLim where
  | halfOpen
  | closed
  deriving Repr, DecidableEq

/-- `hir::MatchSource`, as far as the loop detectors distinguish it. -/
inductive MatchSrc where
  | normalSrc
  | ifLetSrc
  | whileLetSrc
  | forLoopSrc
  deriving Repr, DecidableEq

/-- Patterns (`hir::PatKind`), restricted to the shapes the loop detectors
inspect. `bindingPat` carries the pattern node id (= the binding's
declaration identity). -/
inductive Pat where
  | wildPat
  | bindingPat (id : Nat) (name : String) (sub : Option Pat)
  | tuplePat (ps : List Pat)
  | tupleStructPat (ctor : String) (args : List Pat)
  | otherPat

mutual

/-- Expressions (`hir::Expr`), restricted to the node kinds the loop
detectors and their sub-visitors match on. -/
inductive Expr where
  | pathE (res : Res) (name : String) (segs : Nat)
  | litInt (n : Int)
  | litOther
  | assignE (lhs rhs : Expr)
  | assignOpE (op : BinOpK) (lhs rhs : Expr)
  | addrOfE (m : Mutab) (e : Expr)
  | ifE (cond thn : Expr) (els : Option Expr)
  | matchE (mid : Nat) (scrut : Expr) (arms : List (List Pat × Option Expr × Expr))
      (src : MatchSrc)
  | loopE (body : Expr)
  | whileE (cond body : Expr)
  | indexE (base idx : Expr)
  | callE (mname : String) (args : List Expr)
  | rangeE (lo hi : Option Expr) (lim : RangeLim)
  | blockE (stmts : List Stmt) (tail : Option Expr)

/-- Statements (`hir::Stmt`): a `let` declaration (`StmtDecl`/`DeclLocal`
with its pattern node id, pattern and optional initializer) or an
expression statement. -/
inductive Stmt where
  | declS (pid : Nat) (pat : Pat) (init : Option Expr)
  | exprS (e : Expr)

end

/-- Embeds `fn var_def_id` from loops.rs: the `NodeId` of the local a path
expression resolves to (`Def::Local` only; upvars, statics and constants
give `None`). -/
def var_def_id : Expr → Option Nat
  | .pathE (.localR id) _ _ => some id
  | _ => none

/-- The `DefId` of a resolved path as `expect_def(..).def_id()` yields it in
the `VarVisitor` (locals and upvars both carry their binding's identity). -/
def resDefId : Res → Option Nat
  | .localR id => some id
  | .upvarR id => some id
  | _ => none

/-- Embeds `fn is_integer_literal` from utils: the expression is an integer
literal of the given value. -/
def is_integer_literal (e : Expr) (v : Int) : Bool :=
  match e with
  | .litInt n => n = v
  | _ => false

/-- Embeds `fn is_loop` from loops.rs (`ExprLoop` or `ExprWhile`). -/
def is_loop : Expr → Bool
  | .loopE _ => true
  | .whileE _ _ => true
  | _ => false

/-- Embeds `fn is_conditional` from loops.rs (`ExprIf` or `ExprMatch`). -/
def is_conditional : Expr → Bool
  | .ifE _ _ _ => true
  | .matchE _ _ _ _ => true
  | _ => false

/-- The immediate parent context of a visited expression, as the visitors
consult it through `get_parent_expr`: whether this node is the left-hand
side of a (compound) assignment, the operand of a borrow, a child of an
index expression (with that expression's base), some other expression's
child, or has no parent expression at all (statement/block/declaration
position, where `get_parent_expr` returns `None`). -/
inductive PCtx where
  | assignOpLhsCtx (op : BinOpK) (rhs : Expr)
  | assignLhsCtx (rhs : Expr)
  | addrOfCtx (m : Mutab)
  | indexCtx (base : Expr)
  | otherCtx
  | noParentCtx

/-- Embeds `enum VarState` from loops.rs. -/
inductive VarState where
  | Initial
  | IncrOnce
  | Declared
  | Warn
  | DontWarn
  deriving Repr, DecidableEq

/-- Lookup in the visitor's per-binding state map (`HashMap<NodeId, VarState>`). -/
def lookupSt (l : List (Nat × VarState)) (id : Nat) : Option VarState :=
  match l with
  | [] => none
  | (k, v) :: rest => if k = id then some v else lookupSt rest id

/-- Write-back into the state map (`entry(..).or_insert(..)` followed by an
assignment to the entry). -/
def setSt (l : List (Nat × VarState)) (id : Nat) (v : VarState) :
    List (Nat × VarState) :=
  match l with
  | [] => [(id, v)]
  | (k, w) :: rest => if k = id then (k, v) :: rest else (k, w) :: setSt rest id v

/-- State of the `IncrementVisitor` (`states`, `depth`, `done`). -/
structure IncSt where
  states : List (Nat × VarState)
  depth : Nat
  done : Bool
  deriving DecidableEq

/-- The new state the `IncrementVisitor` computes for a variable reference,
given its parent context (the `match parent.node` in its `visit_expr`):
a compound `+= 1` at depth 0 promotes `Initial` to `IncrOnce`, every other
candidate increment gives `DontWarn`, compound assignment of anything else,
plain assignment and mutable borrow give `DontWarn`, anything else leaves
the state unchanged (the entry is still materialised by `or_insert`). -/
def incRule (cur : VarState) (depth : Nat) (ctx : PCtx) : VarState :=
  match ctx with
  | .assignOpLhsCtx op rhs =>
    if op = .add ∧ is_integer_literal rhs 1 then
      match cur, depth with
      | .Initial, 0 => .IncrOnce
      | _, _ => .DontWarn
    else .DontWarn
  | .assignLhsCtx _ => .DontWarn
  | .addrOfCtx .mutb => .DontWarn
  | _ => cur

mutual

/-- Embeds `IncrementVisitor::visit_expr` from loops.rs, fused with the
per-node-kind child walk of `walk_expr`: a `done` pass ignores everything;
a local-variable reference with a parent expression applies `incRule`;
a nested loop clears all states and sets `done`; a conditional bumps the
depth around its subtree; everything else walks its children. -/
def incVisit (st : IncSt) (ctx : PCtx) (e : Expr) : IncSt :=
  if st.done then st
  else
    match e with
    | .pathE (.localR id) _ _ =>
      match ctx with
      | .noParentCtx => st
      | _ =>
        let cur := (lookupSt st.states id).getD .Initial
        { st with states := setSt st.states id (incRule cur st.depth ctx) }
    | .pathE _ _ _ => st
    | .litInt _ => st
    | .litOther => st
    | .loopE _ => { states := [], depth := st.depth, done := true }
    | .whileE _ _ => { states := [], depth := st.depth, done := true }
    | .ifE c t els =>
      let st1 := incVisitOpt (incVisit (incVisit { st with depth := st.depth + 1 }
        .otherCtx c) .otherCtx t) els
      { st1 with depth := st1.depth - 1 }
    | .matchE _ scrut arms _ =>
      let st1 := incVisitArms (incVisit { st with depth := st.depth + 1 }
        .otherCtx scrut) arms
      { st1 with depth := st1.depth - 1 }
    | .assignE lhs rhs => incVisit (incVisit st (.assignLhsCtx rhs) lhs) .otherCtx rhs
    | .assignOpE op lhs rhs =>
      incVisit (incVisit st (.assignOpLhsCtx op rhs) lhs) .otherCtx rhs
    | .addrOfE m a => incVisit st (.addrOfCtx m) a
    | .indexE b i => incVisit (incVisit st (.indexCtx b) b) (.indexCtx b) i
    | .callE _ args => incVisitList st args
    | .rangeE lo hi _ => incVisitOpt (incVisitOpt st lo) hi
    | .blockE stmts tail => incVisitOpt2 (incVisitStmts st stmts) tail

/-- Child walk over a method call's arguments (parent is the call). -/
def incVisitList (st : IncSt) : List Expr → IncSt
  | [] => st
  | e :: es => incVisitList (incVisit st .otherCtx e) es

/-- Walk over a block's statements (no parent expression; the default
`visit_decl` of the `IncrementVisitor` just walks the initializer). -/
def incVisitStmts (st : IncSt) : List Stmt → IncSt
  | [] => st
  | .declS _ _ (some i) :: es => incVisitStmts (incVisit st .noParentCtx i) es
  | .declS _ _ none :: es => incVisitStmts st es
  | .exprS e :: es => incVisitStmts (incVisit st .noParentCtx e) es

/-- Child walk over an optional child expression. -/
def incVisitOpt (st : IncSt) : Option Expr → IncSt
  | none => st
  | some e => incVisit st .otherCtx e

/-- Walk over a block's optional trailing expression (no parent expression). -/
def incVisitOpt2 (st : IncSt) : Option Expr → IncSt
  | none => st
  | some e => incVisit st .noParentCtx e

/-- Child walk over match arms (guard then body, parent is the match). -/
def incVisitArms (st : IncSt) : List (List Pat × Option Expr × Expr) → IncSt
  | [] => st
  | (_, g, b) :: rest => incVisitArms (incVisit (incVisitOpt st g) .otherCtx b) rest

end

/-- State of the `InitializeVisitor`: the for-loop node's identity
(`end_expr`), the tracked binding, and the `state`/`name`/`depth`/`past_loop`
fields. -/
structure InitSt where
  endId : Nat
  varId : Nat
  state : VarState
  name : Option String
  depth : Nat
  pastLoop : Bool
  deriving DecidableEq

/-- The `expr == self.end_expr` comparison: in rustc this compares the
visited node with the for-loop expression (a desugared-for-loop match);
node identity is modelled by the match node id. -/
def isEndExpr (endId : Nat) : Expr → Bool
  | .matchE mid _ _ _ => mid = endId
  | _ => false

mutual

/-- Embeds `InitializeVisitor::visit_expr` from loops.rs fused with the
child walk: `DontWarn` stops everything; reaching `end_expr` sets
`past_loop` and prunes; while still `IncrOnce` (declaration not yet seen)
everything is skipped; a reference to the tracked variable applies the
write rules and, past the loop, degrades to `DontWarn`; a loop before
`end_expr` degrades to `DontWarn`; conditionals bump `depth`. -/
def initVisit (st : InitSt) (ctx : PCtx) (e : Expr) : InitSt :=
  if st.state = .DontWarn then st
  else if isEndExpr st.endId e then { st with pastLoop := true }
  else if st.state = .IncrOnce then st
  else
    match e with
    | .pathE (.localR id) _ _ =>
      if id = st.varId then
        let st1 :=
          match ctx with
          | .assignOpLhsCtx _ _ => { st with state := .DontWarn }
          | .assignLhsCtx rhs =>
            { st with state :=
                if is_integer_literal rhs 0 ∧ st.depth = 0 then .Warn else .DontWarn }
          | .addrOfCtx .mutb => { st with state := .DontWarn }
          | _ => st
        if st1.pastLoop then { st1 with state := .DontWarn } else st1
      else st
    | .pathE _ _ _ => st
    | .litInt _ => st
    | .litOther => st
    | .loopE b =>
      if st.pastLoop then initVisit st .otherCtx b
      else { st with state := .DontWarn }
    | .whileE c b =>
      if st.pastLoop then initVisit (initVisit st .otherCtx c) .otherCtx b
      else { st with state := .DontWarn }
    | .ifE c t els =>
      let st1 := initVisitOpt (initVisit (initVisit { st with depth := st.depth + 1 }
        .otherCtx c) .otherCtx t) els
      { st1 with depth := st1.depth - 1 }
    | .matchE _ scrut arms _ =>
      let st1 := initVisitArms (initVisit { st with depth := st.depth + 1 }
        .otherCtx scrut) arms
      { st1 with depth := st1.depth - 1 }
    | .assignE lhs rhs => initVisit (initVisit st (.assignLhsCtx rhs) lhs) .otherCtx rhs
    | .assignOpE op lhs rhs =>
      initVisit (initVisit st (.assignOpLhsCtx op rhs) lhs) .otherCtx rhs
    | .addrOfE m a => initVisit st (.addrOfCtx m) a
    | .indexE b i => initVisit (initVisit st (.indexCtx b) b) (.indexCtx b) i
    | .callE _ args => initVisitList st args
    | .rangeE lo hi _ => initVisitOpt (initVisitOpt st lo) hi
    | .blockE stmts tail => initVisitOpt2 (initVisitStmts st stmts) tail

/-- Embeds `InitializeVisitor::visit_decl`: at the tracked binding's
declaration record its name and set `Warn` (literal-0 initializer) or
`Declared`, then walk the initializer (`walk_decl`). Note: unlike
`visit_expr`, `visit_decl` has no early returns. -/
def initVisitDecl (st : InitSt) (pid : Nat) (p : Pat) (init : Option Expr) : InitSt :=
  let st1 :=
    if pid = st.varId then
      match p with
      | .bindingPat _ nm _ =>
        { st with name := some nm,
                  state :=
                    match init with
                    | some i => if is_integer_literal i 0 then .Warn else .Declared
                    | none => .Declared }
      | _ => st
    else st
  match init with
  | some i => initVisit st1 .noParentCtx i
  | none => st1

/-- Child walk over call arguments. -/
def initVisitList (st : InitSt) : List Expr → InitSt
  | [] => st
  | e :: es => initVisitList (initVisit st .otherCtx e) es

/-- Walk over a block's statements (`walk_block`): declaration statements go
through `visit_decl`, expression statements through `visit_expr` with no
parent expression. -/
def initVisitStmts (st : InitSt) : List Stmt → InitSt
  | [] => st
  | .declS pid p init :: es => initVisitStmts (initVisitDecl st pid p init) es
  | .exprS e :: es => initVisitStmts (initVisit st .noParentCtx e) es

/-- Child walk over an optional direct child expression. -/
def initVisitOpt (st : InitSt) : Option Expr → InitSt
  | none => st
  | some e => initVisit st .otherCtx e

/-- Walk over a block's optional trailing expression (no parent expression). -/
def initVisitOpt2 (st : InitSt) : Option Expr → InitSt
  | none => st
  | some e => initVisit st .noParentCtx e

/-- Child walk over match arms. -/
def initVisitArms (st : InitSt) : List (List Pat × Option Expr × Expr) → InitSt
  | [] => st
  | (_, g, b) :: rest => initVisitArms (initVisit (initVisitOpt st g) .otherCtx b) rest

end

/-- Walk of the block enclosing the for loop
(`walk_block(&mut visitor2, block)` in `check_for_loop_explicit_counter`). -/
def initWalkBlock (st : InitSt) (stmts : List Stmt) (tail : Option Expr) : InitSt :=
  initVisitOpt2 (initVisitStmts st stmts) tail

/-- State of the `VarVisitor` of `check_for_loop_range`: the indexed
containers found so far (`HashMap<Name, Option<CodeExtent>>`, the extent
being `None` for statics/constants) and the `nonindex` flag. -/
structure VarSt where
  indexed : List (String × Option Nat)
  nonindex : Bool
  deriving DecidableEq

/-- `HashMap::insert` on the indexed-container map: replace the entry for
the name if present, otherwise add it. -/
def insertIdx (l : List (String × Option Nat)) (k : String) (v : Option Nat) :
    List (String × Option Nat) :=
  match l with
  | [] => [(k, v)]
  | (k0, v0) :: rest =>
    if k0 = k then (k0, v) :: rest else (k0, v0) :: insertIdx rest k v

mutual

/-- Embeds `VarVisitor::visit_expr` from loops.rs fused with the child walk:
a single-segment reference to the induction variable whose parent is an
index expression over a single-segment local/upvar (extent recorded) or
static/constant (no extent) container records that container; any other
reference to the induction variable sets `nonindex`; all other nodes just
walk their children. `scope` is the Scope/Extent collaborator
(`region_maps.var_scope`). -/
def varVisit (scope : Nat → Nat) (var : Nat) (st : VarSt) (ctx : PCtx) (e : Expr) :
    VarSt :=
  match e with
  | .pathE res _ segs =>
    if segs = 1 ∧ resDefId res = some var then
      match ctx with
      | .indexCtx (.pathE sres snm 1) =>
        match sres with
        | .localR sid => { st with indexed := insertIdx st.indexed snm (some (scope sid)) }
        | .upvarR sid => { st with indexed := insertIdx st.indexed snm (some (scope sid)) }
        | .staticR => { st with indexed := insertIdx st.indexed snm none }
        | .constR => { st with indexed := insertIdx st.indexed snm none }
        | .otherR => { st with nonindex := true }
      | _ => { st with nonindex := true }
    else st
  | .litInt _ => st
  | .litOther => st
  | .assignE lhs rhs =>
    varVisit scope var (varVisit scope var st (.assignLhsCtx rhs) lhs) .otherCtx rhs
  | .assignOpE op lhs rhs =>
    varVisit scope var (varVisit scope var st (.assignOpLhsCtx op rhs) lhs) .otherCtx rhs
  | .addrOfE m a => varVisit scope var st (.addrOfCtx m) a
  | .ifE c t els =>
    varVisitOpt scope var
      (varVisit scope var (varVisit scope var st .otherCtx c) .otherCtx t) els
  | .matchE _ scrut arms _ =>
    varVisitArms scope var (varVisit scope var st .otherCtx scrut) arms
  | .loopE b => varVisit scope var st .otherCtx b
  | .whileE c b =>
    varVisit scope var (varVisit scope var st .otherCtx c) .otherCtx b
  | .indexE b i =>
    varVisit scope var (varVisit scope var st (.indexCtx b) b) (.indexCtx b) i
  | .callE _ args => varVisitList scope var st args
  | .rangeE lo hi _ => varVisitOpt scope var (varVisitOpt scope var st lo) hi
  | .blockE stmts tail => varVisitOpt2 scope var (varVisitStmts scope var st stmts) tail

/-- Child walk over call arguments. -/
def varVisitList (scope : Nat → Nat) (var : Nat) (st : VarSt) : List Expr → VarSt
  | [] => st
  | e :: es => varVisitList scope var (varVisit scope var st .otherCtx e) es

/-- Walk over a block's statements. -/
def varVisitStmts (scope : Nat → Nat) (var : Nat) (st : VarSt) : List Stmt → VarSt
  | [] => st
  | .declS _ _ (some i) :: es =>
    varVisitStmts scope var (varVisit scope var st .noParentCtx i) es
  | .declS _ _ none :: es => varVisitStmts scope var st es
  | .exprS e :: es => varVisitStmts scope var (varVisit scope var st .noParentCtx e) es

/-- Child walk over an optional direct child expression. -/
def varVisitOpt (scope : Nat → Nat) (var : Nat) (st : VarSt) : Option Expr → VarSt
  | none => st
  | some e => varVisit scope var st .otherCtx e

/-- Walk over a block's optional trailing expression. -/
def varVisitOpt2 (scope : Nat → Nat) (var : Nat) (st : VarSt) : Option Expr → VarSt
  | none => st
  | some e => varVisit scope var st .noParentCtx e

/-- Child walk over match arms. -/
def varVisitArms (scope : Nat → Nat) (var : Nat) (st : VarSt) :
    List (List Pat × Option Expr × Expr) → VarSt
  | [] => st
  | (_, g, b) :: rest =>
    varVisitArms scope var
      (varVisit scope var (varVisitOpt scope var st g) .otherCtx b) rest

end

mutual

/-- Embeds `UsedVisitor::visit_expr` from loops.rs: whether a bare
single-segment path with the given name occurs anywhere in the expression. -/
def usedIn (nm : String) : Expr → Bool
  | .pathE _ n segs => segs = 1 ∧ n = nm
  | .litInt _ => false
  | .litOther => false
  | .assignE lhs rhs => usedIn nm lhs || usedIn nm rhs
  | .assignOpE _ lhs rhs => usedIn nm lhs || usedIn nm rhs
  | .addrOfE _ a => usedIn nm a
  | .ifE c t els => usedIn nm c || usedIn nm t || usedInOpt nm els
  | .matchE _ scrut arms _ => usedIn nm scrut || usedInArms nm arms
  | .loopE b => usedIn nm b
  | .whileE c b => usedIn nm c || usedIn nm b
  | .indexE b i => usedIn nm b || usedIn nm i
  | .callE _ args => usedInList nm args
  | .rangeE lo hi _ => usedInOpt nm lo || usedInOpt nm hi
  | .blockE stmts tail => usedInStmts nm stmts || usedInOpt nm tail

/-- `usedIn` over a list of expressions. -/
def usedInList (nm : String) : List Expr → Bool
  | [] => false
  | e :: es => usedIn nm e || usedInList nm es

/-- `usedIn` over a block's statements. -/
def usedInStmts (nm : String) : List Stmt → Bool
  | [] => false
  | .declS _ _ (some i) :: es => usedIn nm i || usedInStmts nm es
  | .declS _ _ none :: es => usedInStmts nm es
  | .exprS e :: es => usedIn nm e || usedInStmts nm es

/-- `usedIn` over an optional expression. -/
def usedInOpt (nm : String) : Option Expr → Bool
  | none => false
  | some e => usedIn nm e

/-- `usedIn` over match arms. -/
def usedInArms (nm : String) : List (List Pat × Option Expr × Expr) → Bool
  | [] => false
  | (_, g, b) :: rest => usedInOpt nm g || usedIn nm b || usedInArms nm rest

end

/-- Constant-evaluation results (`ConstVal`), as far as the detectors
distinguish them: an integral value or anything else. -/
inductive ConstVal where
  | integral (n : Int)
  | nonIntegral
  deriving Repr, DecidableEq

/-- One step of the forward scan of `VarUsedAfterLoopVisitor`: the iterator
expression node itself (`iter_expr_id`), a reference resolving (or not) to
some local, or any other node, in visit order. -/
inductive ScanEvent where
  | iterOccEv
  | refEv (d : Option Nat)
  | otherEv

/-- The collaborator bundle a detector invocation consumes (spec section 6):
constant evaluator, snippet extraction, `Sugg` parenthesisation, the
Iterator/Map type queries, the Scope/Extent service, and the enclosing-block
forward scan used by `is_iterator_used_after_while_let` (the walk of
`get_enclosing_block(cx, def_id)` flattened to visit order). -/
structure LintCtx where
  evalConst : Expr → Option ConstVal
  snip : Expr → String
  patSnip : Pat → String
  snipMaybePar : Expr → String
  isIteratorNext : Expr → Bool
  isMapTy : Expr → Bool
  varScope : Nat → Nat
  isSubscopeOf : Nat → Nat → Bool
  enclosingScan : Nat → Option (List ScanEvent)

/-- The spec's Range data model: optional start bound, optional end bound,
inclusive flag. -/
structure HRange where
  lo : Option Expr
  hi : Option Expr
  lim : RangeLim

/-- Modelled from the spec: `higher::range` (utils/higher.rs is not among
the provided sources) destructures a range construct into the Range data
model "(start bound, end bound, inclusive flag)" used for loop iterables. -/
def higher_range : Expr → Option HRange
  | .rangeE lo hi lim => some ⟨lo, hi, lim⟩
  | _ => none

/-- Result of the Reverse-Range detector: a finding with the swapped-bounds
reverse suggestion, or a finding without a suggestion (the `start == end`
half-open case emits only the lint message). -/
inductive RevFinding where
  | fires (sugg : String)
  | firesNoSugg
  deriving Repr, DecidableEq

/-- Embeds `fn check_for_loop_reverse_range` from loops.rs: for a two-sided
range whose bounds constant-evaluate to integrals, `start > end` fires with
the `(end..start).rev()` suggestion (`...` for a closed range) and
`start == end` on a non-closed range fires without a suggestion. -/
def check_for_loop_reverse_range (ctx : LintCtx) (arg : Expr) : Option RevFinding :=
  match higher_range arg with
  | some ⟨some lo, some hi, lim⟩ =>
    match ctx.evalConst lo, ctx.evalConst hi with
    | some sv, some ev =>
      let se : Bool × Bool :=
        match sv, ev with
        | .integral s, .integral e => (decide (s > e), decide (s = e))
        | _, _ => (false, false)
      if se.1 then
        some (.fires ("(" ++ ctx.snip hi ++ (if lim = .closed then "..." else "..")
          ++ ctx.snip lo ++ ").rev()"))
      else if se.2 ∧ lim ≠ .closed then some .firesNoSugg
      else none
    | _, _ => none
  | _ => none

/-- Embeds `fn is_len_call` from loops.rs: the expression is a `len()`
method call with no arguments on a bare single-segment variable of the given
name. -/
def is_len_call (e : Expr) (var : String) : Bool :=
  match e with
  | .callE mname [.pathE _ n segs] => mname = "len" ∧ segs = 1 ∧ n = var
  | _ => false

/-- The `.skip(..)` fragment of the Range-Index suggestion: omitted exactly
when the range start is the integer literal 0. -/
def rangeSkip (ctx : LintCtx) (lo : Expr) : String :=
  if is_integer_literal lo 0 then "" else ".skip(" ++ ctx.snip lo ++ ")"

/-- The `.take(..)` fragment of the Range-Index suggestion: omitted when the
range has no end bound or the end bound is `<container>.len()`; for a closed
range the textual `+ 1` is appended to the user's end expression (the
`Sugg + ONE` composition, modelled from the spec's "add one to the
take-count textually"). -/
def rangeTake (ctx : LintCtx) (hi : Option Expr) (lim : RangeLim)
    (indexed : String) : String :=
  match hi with
  | some e =>
    if is_len_call e indexed then ""
    else
      match lim with
      | .closed => ".take(" ++ ctx.snip e ++ " + 1)"
      | .halfOpen => ".take(" ++ ctx.snip e ++ ")"
  | none => ""

/-- Embeds `fn check_for_loop_range` from loops.rs: on a range iterable with
a known start and a single-binding induction pattern, run the `VarVisitor`
over the body; fire only when exactly one distinct container was indexed and
its declaration extent is not a sub-extent of the induction binding's
extent. The result is `(nonindex, pattern replacement, iterable
replacement)`. -/
def check_for_loop_range (ctx : LintCtx) (pat : Pat) (arg body : Expr) :
    Option (Bool × String × String) :=
  match higher_range arg with
  | some ⟨some lo, hi, lim⟩ =>
    match pat with
    | .bindingPat pid nm _ =>
      let v := varVisit ctx.varScope pid ⟨[], false⟩ .noParentCtx body
      match v.indexed with
      | [(iname, iext)] =>
        if (match iext with
            | some ext => ctx.isSubscopeOf ext (ctx.varScope pid)
            | none => false) then none
        else
          let skip := rangeSkip ctx lo
          let take := rangeTake ctx hi lim iname
          if v.nonindex then
            some (true, "(" ++ nm ++ ", <item>)",
                  iname ++ ".iter().enumerate()" ++ take ++ skip)
          else
            let repl :=
              if is_integer_literal lo 0 ∧ take = "" then "&" ++ iname
              else iname ++ ".iter()" ++ take ++ skip
            some (false, "<item>", repl)
      | _ => none
    | _ => none
  | _ => none

/-- The `starts_with('_')` test on an identifier. -/
def underscorePrefixed (nm : String) : Bool :=
  match nm.data with
  | c :: _ => c = '_'
  | [] => false

/-- Embeds `fn pat_is_wild` from loops.rs: a wildcard pattern, or an
underscore-prefixed binding (with no sub-pattern) that is never referenced
in the loop body (checked by the `UsedVisitor`). -/
def pat_is_wild (p : Pat) (body : Expr) : Bool :=
  match p with
  | .wildPat => true
  | .bindingPat _ nm none => underscorePrefixed nm ∧ ¬ usedIn nm body
  | _ => false

/-- Embeds `fn check_for_loop_over_map_kv` from loops.rs: on a 2-tuple loop
pattern, pick `values` when the key side is wild (checked first), else
`keys` when the value side is wild; unwrap an immutable borrow of the
iterable, refuse a mutable borrow; fire when the target's type is a map.
The result is `(kind, pattern replacement, iterable replacement)`. -/
def check_for_loop_over_map_kv (ctx : LintCtx) (pat : Pat) (arg body : Expr) :
    Option (String × String × String) :=
  match pat with
  | .tuplePat [p0, p1] =>
    let sel : Option (Pat × String) :=
      if pat_is_wild p0 body then some (p1, "value")
      else if pat_is_wild p1 body then some (p0, "key")
      else none
    match sel with
    | none => none
    | some (newPat, kind) =>
      let argTarget : Option Expr :=
        match arg with
        | .addrOfE .imm inner => some inner
        | .addrOfE .mutb _ => none
        | _ => some arg
      match argTarget with
      | none => none
      | some a =>
        if ctx.isMapTy a then
          some (kind, ctx.patSnip newPat, ctx.snipMaybePar a ++ "." ++ kind ++ "s()")
        else none
  | _ => none

/-- Embeds `VarUsedAfterLoopVisitor`'s forward scan: once the iterator
expression node has been passed, any reference resolving to the tracked
local counts as a use after the while-let. -/
def usedAfterGo (did : Nat) (past : Bool) : List ScanEvent → Bool
  | [] => false
  | ev :: rest =>
    if past then
      match ev with
      | .refEv (some d) => if d = did then true else usedAfterGo did past rest
      | _ => usedAfterGo did past rest
    else
      match ev with
      | .iterOccEv => usedAfterGo did true rest
      | _ => usedAfterGo did false rest

/-- Embeds `fn is_iterator_used_after_while_let` from loops.rs: if the
iterator expression does not resolve to a local (`var_def_id` is `None`),
the answer is `false`; otherwise scan the enclosing block (if any) forward
from the iterator expression node. -/
def is_iterator_used_after_while_let (ctx : LintCtx) (iterExpr : Expr) : Bool :=
  match var_def_id iterExpr with
  | none => false
  | some did =>
    match ctx.enclosingScan did with
    | none => false
    | some evs => usedAfterGo did false evs

/-- Embeds the While-Let-On-Iterator arm of `LateLintPass::check_expr` from
loops.rs: a while-let-desugared match whose first arm's pattern is a
tuple-struct whose last path segment is `Some`, whose scrutinee is a `next`
method call on an Iterator receiver (type-query collaborator), and whose
iterator is not used after the loop, produces the `for .. in .. { .. }`
suggestion. -/
def check_while_let_on_iterator (ctx : LintCtx) (e : Expr) : Option String :=
  match e with
  | .matchE _ scrut arms .whileLetSrc =>
    match arms with
    | (pat0 :: _, _, _) :: _ =>
      match pat0, scrut with
      | .tupleStructPat ctor pargs, .callE mname margs =>
        match margs with
        | iterExpr :: _ =>
          if mname = "next" ∧ ctx.isIteratorNext scrut ∧ ctor = "Some"
              ∧ ¬ is_iterator_used_after_while_let ctx iterExpr then
            match pargs with
            | parg0 :: _ =>
              some ("for " ++ ctx.patSnip parg0 ++ " in " ++ ctx.snip iterExpr
                ++ " \x7b .. \x7d")
            | [] => none
          else none
        | [] => none
      | _, _ => none
    | _ => none
  | _ => none

/-- One candidate of `check_for_loop_explicit_counter`: run the
`InitializeVisitor` over the enclosing block for a binding that reached
`IncrOnce`; the lint fires when the final state is `Warn` (the recorded name
is the reported counter variable). -/
def counterCandidateFires (endId varId : Nat) (blockStmts : List Stmt)
    (blockTail : Option Expr) : Option String :=
  let v2 := initWalkBlock ⟨endId, varId, .IncrOnce, none, 0, false⟩ blockStmts blockTail
  if v2.state = .Warn then v2.name else none

/-- Embeds `fn check_for_loop_explicit_counter` from loops.rs: pass A runs
the `IncrementVisitor` over the loop body; for each binding that reached
`IncrOnce`, pass B runs the `InitializeVisitor` over the block enclosing the
loop (whose node identity is `endId`); the returned names are the counter
variables reported. -/
def check_for_loop_explicit_counter (body : Expr) (blockStmts : List Stmt)
    (blockTail : Option Expr) (endId : Nat) : List String :=
  let v1 := incVisit ⟨[], 0, false⟩ .noParentCtx body
  (v1.states.filter fun p => p.2 == .IncrOnce).filterMap
    fun p => counterCandidateFires endId p.1 blockStmts blockTail

/-! ### Concrete fixtures used by example conjuncts, witnesses and
counterexamples. `fxCtx` is a collaborator bundle whose constant evaluator
folds integer literals, whose snippet functions return the placeholder
strings "S"/"P"/"M", whose type queries always answer yes, and whose scope
service makes nothing a subscope. -/

/-- A constant evaluator folding exactly the integer literals. -/
def litEval : Expr → Option ConstVal
  | .litInt n => some (.integral n)
  | _ => none

/-- Baseline collaborator fixture. -/
def fxCtx : LintCtx :=
  ⟨litEval, fun _ => "S", fun _ => "P", fun _ => "M", fun _ => true, fun _ => true,
    fun n => n, fun _ _ => false, fun _ => none⟩

/-- Fixture where every extent is a subscope of every other. -/
def fxCtxSub : LintCtx := { fxCtx with isSubscopeOf := fun _ _ => true }

/-- Fixture whose enclosing-block scan reports local 4 used after the
while-let. -/
def fxCtxScan : LintCtx :=
  { fxCtx with enclosingScan := fun _ => some [.iterOccEv, .refEv (some 4)] }

/-- The induction variable `i` (local 1). -/
def fxI : Expr := .pathE (.localR 1) "i" 1

/-- The indexed container `v` (local 2). -/
def fxV : Expr := .pathE (.localR 2) "v" 1

/-- Loop body `{ v[i]; }`. -/
def fxBodyIdx : Expr := .blockE [.exprS (.indexE fxV fxI)] none

/-- Loop body `{ v[i]; f(i); }` (a non-index use of `i`). -/
def fxBodyIdxPlus : Expr :=
  .blockE [.exprS (.indexE fxV fxI), .exprS (.callE "f" [fxI])] none

/-- The iterable `0..v.len()`. -/
def fxArgLen : Expr :=
  .rangeE (some (.litInt 0)) (some (.callE "len" [fxV])) .halfOpen

/-- The statement `i += 1;`. -/
def fxIncrI : Stmt := .exprS (.assignOpE .add fxI (.litInt 1))

/-- Loop body `{ i += 1; }`. -/
def fxLoopBody : Expr := .blockE [fxIncrI] none

/-- Loop body `{ if cond { i += 1; } }` (conditional increment). -/
def fxLoopBodyCond : Expr :=
  .blockE [.exprS (.ifE (.pathE .otherR "cond" 1) (.blockE [fxIncrI] none) none)] none

/-- Loop body `{ i += 1; while c { } }` (nested loop). -/
def fxLoopBodyNested : Expr :=
  .blockE [fxIncrI, .exprS (.whileE (.pathE .otherR "c" 1) (.blockE [] none))] none

/-- The for-loop node (desugared match, node id 7) as a statement of the
enclosing block. -/
def fxForNode : Stmt := .exprS (.matchE 7 .litOther [] .forLoopSrc)

/-- `let mut i = 0;`. -/
def fxDeclI0 : Stmt := .declS 1 (.bindingPat 1 "i" none) (some (.litInt 0))

/-- `let mut i = 1;`. -/
def fxDeclI1 : Stmt := .declS 1 (.bindingPat 1 "i" none) (some (.litInt 1))

/-- The map iterable (local 9). -/
def fxMap : Expr := .pathE (.localR 9) "map" 1

/-- A while-let-desugared match whose iterator expression `mk()` is not a
bare variable. -/
def fxWhileLetNonVar : Expr :=
  .matchE 11 (.callE "next" [.callE "mk" []])
    [([.tupleStructPat "Some" [.bindingPat 8 "x" none]], none, .litOther)] .whileLetSrc

/-- A while-let-desugared match over the bare local iterator variable
`it` (local 4). -/
def fxWhileLetVar : Expr :=
  .matchE 12 (.callE "next" [.pathE (.localR 4) "it" 1])
    [([.tupleStructPat "Some" [.bindingPat 8 "x" none]], none, .litOther)] .whileLetSrc

/-- The three state operations of the `IncrementVisitor` preserve `P`:
the per-reference rule write (only reachable with `done` unset), the
nested-loop abort, and a depth change. -/
def IncStepClosed (P : IncSt → Prop) : Prop :=
  (∀ (states : List (Nat × VarState)) (depth id : Nat) (ctx2 : PCtx),
    P ⟨states, depth, false⟩ →
    P ⟨setSt states id (incRule ((lookupSt states id).getD .Initial) depth ctx2), depth, false⟩) ∧
  (∀ (states : List (Nat × VarState)) (depth : Nat),
    P ⟨states, depth, false⟩ → P ⟨[], depth, true⟩) ∧
  (∀ (states : List (Nat × VarState)) (depth : Nat) (done : Bool) (d : Nat),
    P ⟨states, depth, done⟩ → P ⟨states, d, done⟩)

/-- The four state operations of the `InitializeVisitor` preserve `P`:
setting `past_loop`, a state write away from `IncrOnce` (state writes in
`visit_expr` only happen after the `IncrOnce` early return), the
declaration write (which records the name together with the state), and a
depth change. -/
def InitStepClosed (P : InitSt → Prop) : Prop :=
  (∀ (eid vid : Nat) (s : VarState) (n : Option String) (d : Nat) (pl : Bool),
    P ⟨eid, vid, s, n, d, pl⟩ → P ⟨eid, vid, s, n, d, true⟩) ∧
  (∀ (eid vid : Nat) (s : VarState) (n : Option String) (d : Nat) (pl : Bool)
      (v : VarState), s ≠ .IncrOnce →
    P ⟨eid, vid, s, n, d, pl⟩ → P ⟨eid, vid, v, n, d, pl⟩) ∧
  (∀ (eid vid : Nat) (s : VarState) (n : Option String) (d : Nat) (pl : Bool)
      (nm : String) (v : VarState),
    P ⟨eid, vid, s, n, d, pl⟩ → P ⟨eid, vid, v, some nm, d, pl⟩) ∧
  (∀ (eid vid : Nat) (s : VarState) (n : Option String) (d : Nat) (pl : Bool)
      (d2 : Nat), P ⟨eid, vid, s, n, d, pl⟩ → P ⟨eid, vid, s, n, d2, pl⟩)

/-! ## Theorems settling the claims -/

/-- C1: walking consecutive sorted Start/End event pairs, the sweep reports
no overlap only for an End-then-Start transition at differing values (and for
a Start-then-End pair of ranges with identical endpoint pairs, in particular
the same range); Start-then-End of ranges with distinct endpoints,
End-then-Start at equal values, Start-then-Start and End-then-End all signal
an overlap, so `1...5` and `5...10` (shared inclusive boundary) are reported;
`1...10`/`5...15` are reported, `1...5`/`6...10` are not; only the first
overlapping pair in sorted order is returned, never the full set. -/
theorem c1_overlap_sweep :
    (∀ (v w : Int) (ra rb : SpannedRange Int) (rest : List (SweepKind Int)),
        scanPairs (.start v ra :: .stop w rb :: rest) =
          if ra.node ≠ rb.node then some (ra, rb)
          else scanPairs (.stop w rb :: rest)) ∧
    (∀ (v w : Int) (ra rb : SpannedRange Int) (rest : List (SweepKind Int)),
        scanPairs (.stop v ra :: .start w rb :: rest) =
          if v ≠ w then scanPairs (.start w rb :: rest) else some (ra, rb)) ∧
    (∀ (v w : Int) (ra rb : SpannedRange Int) (rest : List (SweepKind Int)),
        scanPairs (.start v ra :: .start w rb :: rest) = some (ra, rb)) ∧
    (∀ (v w : Int) (ra rb : SpannedRange Int) (rest : List (SweepKind Int)),
        scanPairs (.stop v ra :: .stop w rb :: rest) = some (ra, rb)) ∧
    overlapping [⟨1, (1, 10)⟩, ⟨2, (5, 15)⟩] = some (⟨1, (1, 10)⟩, ⟨2, (5, 15)⟩) ∧
    overlapping [⟨1, (1, 5)⟩, ⟨2, (6, 10)⟩] = none ∧
    overlapping [⟨1, (1, 5)⟩, ⟨2, (5, 10)⟩] = some (⟨1, (1, 5)⟩, ⟨2, (5, 10)⟩) ∧
    overlapping [⟨1, (1, 10)⟩, ⟨2, (5, 15)⟩, ⟨3, (20, 30)⟩, ⟨4, (25, 35)⟩] =
      some (⟨1, (1, 10)⟩, ⟨2, (5, 15)⟩) := by
  refine ⟨?_, ?_, ?_, ?_, by decide, by decide, by decide, by decide⟩
  · intro v w ra rb rest
    by_cases h : ra.node = rb.node <;> simp [scanPairs, h]
  · intro v w ra rb rest
    by_cases h : v = w <;> simp [scanPairs, h, SweepKind.range]
  · intro v w ra rb rest
    simp [scanPairs, SweepKind.range]
  · intro v w ra rb rest
    simp [scanPairs, SweepKind.range]

/-- C10: the sweep never reports a range as overlapping itself: an adjacent
Start-then-End pair of the same range is skipped, and `overlapping` on the
empty list or on any one-element list (including a degenerate one-point
range) returns no pair. -/
theorem c10_no_self_overlap :
    overlapping [] = none ∧
    (∀ r : SpannedRange Int, overlapping [r] = none) ∧
    (∀ (sp : Nat) (v : Int), overlapping [⟨sp, (v, v)⟩] = none) ∧
    (∀ (v w : Int) (r : SpannedRange Int) (rest : List (SweepKind Int)),
        scanPairs (.start v r :: .stop w r :: rest) =
          scanPairs (.stop w r :: rest)) := by
  have hsingle : ∀ r : SpannedRange Int, overlapping [r] = none := by
    rintro ⟨sp, s, e⟩
    by_cases h : s ≤ e
    · simp [overlapping, sortEvents, insertEv, SweepKind.value, h, scanPairs]
    · have hne : e ≠ s := by omega
      simp [overlapping, sortEvents, insertEv, SweepKind.value, h, scanPairs, hne]
  refine ⟨by decide, hsingle, fun sp v => hsingle ⟨sp, (v, v)⟩, ?_⟩
  intro v w r rest
  simp [scanPairs]

/-- C2: for a loop over a two-sided range whose bounds constant-evaluate to
integrals s and e: s > e fires Reverse-Range with a suggestion that swaps
the bounds and appends `.rev()`; s = e on a half-open range fires without
the reverse suggestion; s = e on an inclusive range does not fire; a
non-constant bound produces no finding. Concretely `5..2` and `5..5` fire,
`2..5` and `5...5` do not. -/
theorem c2_reverse_range (ctx : LintCtx) (lo hi : Expr) (s e : Int) (lim : RangeLim)
    (hs : ctx.evalConst lo = some (.integral s))
    (he : ctx.evalConst hi = some (.integral e)) :
    (s > e →
      check_for_loop_reverse_range ctx (.rangeE (some lo) (some hi) lim) =
        some (.fires ("(" ++ ctx.snip hi ++ (if lim = .closed then "..." else "..")
          ++ ctx.snip lo ++ ").rev()"))) ∧
    (s = e → lim = .halfOpen →
      check_for_loop_reverse_range ctx (.rangeE (some lo) (some hi) lim) =
        some .firesNoSugg) ∧
    (s = e → lim = .closed →
      check_for_loop_reverse_range ctx (.rangeE (some lo) (some hi) lim) = none) ∧
    (s < e →
      check_for_loop_reverse_range ctx (.rangeE (some lo) (some hi) lim) = none) ∧
    (∀ lo2 hi2 lim2, ctx.evalConst lo2 = none →
      check_for_loop_reverse_range ctx (.rangeE (some lo2) (some hi2) lim2) = none) ∧
    (∀ lo2 hi2 lim2, ctx.evalConst hi2 = none →
      check_for_loop_reverse_range ctx (.rangeE (some lo2) (some hi2) lim2) = none) := by
  refine ⟨?_, ?_, ?_, ?_, ?_, ?_⟩
  · intro h
    simp [check_for_loop_reverse_range, higher_range, hs, he, h]
  · intro h hl
    subst h hl
    simp [check_for_loop_reverse_range, higher_range, hs, he]
  · intro h hl
    subst h hl
    simp [check_for_loop_reverse_range, higher_range, hs, he]
  · intro h
    have h1 : ¬ (s > e) := by omega
    have h2 : ¬ (s = e) := by omega
    simp [check_for_loop_reverse_range, higher_range, hs, he, h1, h2]
  · intro lo2 hi2 lim2 h
    simp [check_for_loop_reverse_range, higher_range, h]
  · intro lo2 hi2 lim2 h
    cases h2 : ctx.evalConst lo2 <;>
      simp [check_for_loop_reverse_range, higher_range, h, h2]

/-- Witness for C2 at the spec's concrete ranges. -/
theorem c2_reverse_range_witness :
    check_for_loop_reverse_range fxCtx (.rangeE (some (.litInt 5)) (some (.litInt 2))
        .halfOpen) = some (.fires "(S..S).rev()") ∧
    check_for_loop_reverse_range fxCtx (.rangeE (some (.litInt 5)) (some (.litInt 5))
        .halfOpen) = some .firesNoSugg ∧
    check_for_loop_reverse_range fxCtx (.rangeE (some (.litInt 5)) (some (.litInt 5))
        .closed) = none ∧
    check_for_loop_reverse_range fxCtx (.rangeE (some (.litInt 2)) (some (.litInt 5))
        .halfOpen) = none := by
  have h1 := (c2_reverse_range fxCtx (.litInt 5) (.litInt 2) 5 2 .halfOpen rfl rfl).1
    (by decide)
  have h2 := ((c2_reverse_range fxCtx (.litInt 5) (.litInt 5) 5 5 .halfOpen rfl rfl).2.1)
    rfl rfl
  have h3 := ((c2_reverse_range fxCtx (.litInt 5) (.litInt 5) 5 5 .closed rfl rfl).2.2.1)
    rfl rfl
  have h4 := ((c2_reverse_range fxCtx (.litInt 2) (.litInt 5) 2 5 .halfOpen rfl rfl).2.2.2.1)
    (by decide)
  exact ⟨by simpa using h1, h2, h3, h4⟩

/-- C3: for a loop over a range with a known start whose induction pattern is
a single binding, Range-Index fires only when the `VarVisitor` found exactly
one distinct indexed container; zero or two-or-more containers produce no
finding, and a sole container whose declaration extent is a sub-extent of
the induction binding's extent is excluded. -/
theorem c3_range_index (ctx : LintCtx) (pid : Nat) (nm : String) (sub : Option Pat)
    (lo : Expr) (hi : Option Expr) (lim : RangeLim) (body : Expr) :
    ((varVisit ctx.varScope pid ⟨[], false⟩ .noParentCtx body).indexed = [] →
      check_for_loop_range ctx (.bindingPat pid nm sub)
        (.rangeE (some lo) hi lim) body = none) ∧
    (∀ x y rest,
      (varVisit ctx.varScope pid ⟨[], false⟩ .noParentCtx body).indexed
          = x :: y :: rest →
      check_for_loop_range ctx (.bindingPat pid nm sub)
        (.rangeE (some lo) hi lim) body = none) ∧
    (∀ iname ext,
      (varVisit ctx.varScope pid ⟨[], false⟩ .noParentCtx body).indexed
          = [(iname, some ext)] →
      ctx.isSubscopeOf ext (ctx.varScope pid) = true →
      check_for_loop_range ctx (.bindingPat pid nm sub)
        (.rangeE (some lo) hi lim) body = none) ∧
    (∀ iname ext,
      (varVisit ctx.varScope pid ⟨[], false⟩ .noParentCtx body).indexed
          = [(iname, ext)] →
      (match ext with
       | some x => ctx.isSubscopeOf x (ctx.varScope pid)
       | none => false) = false →
      check_for_loop_range ctx (.bindingPat pid nm sub)
        (.rangeE (some lo) hi lim) body ≠ none) ∧
    (check_for_loop_range ctx (.bindingPat pid nm sub)
        (.rangeE (some lo) hi lim) body ≠ none →
      (varVisit ctx.varScope pid ⟨[], false⟩ .noParentCtx body).indexed.length = 1) := by
  refine ⟨?_, ?_, ?_, ?_, ?_⟩
  · intro h
    simp [check_for_loop_range, higher_range, h]
  · intro x y rest h
    simp [check_for_loop_range, higher_range, h]
  · intro iname ext h hsub
    simp [check_for_loop_range, higher_range, h, hsub]
  · intro iname ext h hsub
    rcases hnx : (varVisit ctx.varScope pid ⟨[], false⟩ .noParentCtx body).nonindex with _ | _ <;>
      simp [check_for_loop_range, higher_range, h, hsub, hnx]
  · intro h
    rcases hv : (varVisit ctx.varScope pid ⟨[], false⟩ .noParentCtx body).indexed with
      _ | ⟨⟨iname, iext⟩, rest⟩
    · exact absurd (by simp [check_for_loop_range, higher_range, hv]) h
    · rcases rest with _ | ⟨y, rest2⟩
      · simp
      · exact absurd (by simp [check_for_loop_range, higher_range, hv]) h

/-- Witness for C3: `for i in 0..v.len() { v[i]; }` fires (one container),
`{ v[i]; w[i]; }` does not (two), an empty body does not (zero), and with a
scope service making the container's extent a subscope of the binding's the
sole-container case is excluded. -/
theorem c3_range_index_witness :
    check_for_loop_range fxCtx (.bindingPat 1 "i" none) fxArgLen fxBodyIdx ≠ none ∧
    check_for_loop_range fxCtx (.bindingPat 1 "i" none) fxArgLen
      (.blockE [.exprS (.indexE fxV fxI), .exprS (.indexE (.pathE (.localR 3) "w" 1) fxI)]
        none) = none ∧
    check_for_loop_range fxCtx (.bindingPat 1 "i" none) fxArgLen (.blockE [] none)
      = none ∧
    check_for_loop_range fxCtxSub (.bindingPat 1 "i" none) fxArgLen fxBodyIdx = none := by
  refine ⟨?_, ?_, ?_, ?_⟩
  · exact (c3_range_index fxCtx 1 "i" none (.litInt 0)
      (some (.callE "len" [fxV])) .halfOpen fxBodyIdx).2.2.2.1 "v" (some 2) (by decide)
      (by decide)
  · exact (c3_range_index fxCtx 1 "i" none (.litInt 0)
      (some (.callE "len" [fxV])) .halfOpen _).2.1 ("v", some 2) ("w", some 3) []
      (by decide)
  · exact (c3_range_index fxCtx 1 "i" none (.litInt 0)
      (some (.callE "len" [fxV])) .halfOpen _).1 (by decide)
  · exact (c3_range_index fxCtxSub 1 "i" none (.litInt 0)
      (some (.callE "len" [fxV])) .halfOpen _).2.2.1 "v" 2 (by decide) rfl

/-- `incVisit` with `done` set is the identity (the visitor's first check). -/
theorem incVisit_done (st : IncSt) (ctx : PCtx) (e : Expr) (h : st.done = true) :
    incVisit st ctx e = st := by
  cases e <;> try simp [incVisit, h]
  case pathE res nm segs => cases res <;> simp [incVisit, h]

mutual

/-- Any property preserved by the three state operations of the
`IncrementVisitor` is preserved by the whole walk. -/
theorem incPres (P : IncSt → Prop) (hc : IncStepClosed P) :
    ∀ (st : IncSt) (ctx : PCtx) (e : Expr), P st → P (incVisit st ctx e)
  | ⟨states, depth, true⟩, ctx, e, hp => by
    rw [incVisit_done _ ctx e rfl]; exact hp
  | ⟨states, depth, false⟩, ctx, e, hp => by
    cases e with
    | pathE res nm segs =>
      cases res with
      | localR id =>
        cases ctx <;> simp [incVisit] <;>
          first
            | exact hp
            | exact hc.1 states depth id _ hp
      | upvarR id => simpa [incVisit] using hp
      | staticR => simpa [incVisit] using hp
      | constR => simpa [incVisit] using hp
      | otherR => simpa [incVisit] using hp
    | litInt n => simpa [incVisit] using hp
    | litOther => simpa [incVisit] using hp
    | assignE lhs rhs =>
      simp only [incVisit, Bool.false_eq_true, if_false]
      exact incPres P hc _ _ rhs (incPres P hc _ _ lhs hp)
    | assignOpE op lhs rhs =>
      simp only [incVisit, Bool.false_eq_true, if_false]
      exact incPres P hc _ _ rhs (incPres P hc _ _ lhs hp)
    | addrOfE m a =>
      simp only [incVisit, Bool.false_eq_true, if_false]
      exact incPres P hc _ _ a hp
    | ifE c t els =>
      simp only [incVisit, Bool.false_eq_true, if_false]
      exact hc.2.2 _ _ _ _ (incPresOpt P hc _ els
        (incPres P hc _ _ t (incPres P hc _ _ c (hc.2.2 states depth false (depth + 1) hp))))
    | matchE mid scrut arms src =>
      simp only [incVisit, Bool.false_eq_true, if_false]
      exact hc.2.2 _ _ _ _ (incPresArms P hc _ arms
        (incPres P hc _ _ scrut (hc.2.2 states depth false (depth + 1) hp)))
    | loopE b =>
      simp only [incVisit, Bool.false_eq_true, if_false]
      exact hc.2.1 states depth hp
    | whileE c b =>
      simp only [incVisit, Bool.false_eq_true, if_false]
      exact hc.2.1 states depth hp
    | indexE b i =>
      simp only [incVisit, Bool.false_eq_true, if_false]
      exact incPres P hc _ _ i (incPres P hc _ _ b hp)
    | callE mname args =>
      simp only [incVisit, Bool.false_eq_true, if_false]
      exact incPresList P hc _ args hp
    | rangeE lo hi lim =>
      simp only [incVisit, Bool.false_eq_true, if_false]
      exact incPresOpt P hc _ hi (incPresOpt P hc _ lo hp)
    | blockE stmts tail =>
      simp only [incVisit, Bool.false_eq_true, if_false]
      exact incPresOpt2 P hc _ tail (incPresStmts P hc _ stmts hp)

theorem incPresList (P : IncSt → Prop) (hc : IncStepClosed P) :
    ∀ (st : IncSt) (es : List Expr), P st → P (incVisitList st es)
  | st, [], hp => by simpa [incVisitList] using hp
  | st, e :: es, hp => by
    simp only [incVisitList]
    exact incPresList P hc _ es (incPres P hc _ _ e hp)

theorem incPresStmts (P : IncSt → Prop) (hc : IncStepClosed P) :
    ∀ (st : IncSt) (ss : List Stmt), P st → P (incVisitStmts st ss)
  | st, [], hp => by simpa [incVisitStmts] using hp
  | st, .declS pid p (some i) :: ss, hp => by
    simp only [incVisitStmts]
    exact incPresStmts P hc _ ss (incPres P hc _ _ i hp)
  | st, .declS pid p none :: ss, hp => by
    simp only [incVisitStmts]
    exact incPresStmts P hc _ ss hp
  | st, .exprS e :: ss, hp => by
    simp only [incVisitStmts]
    exact incPresStmts P hc _ ss (incPres P hc _ _ e hp)

theorem incPresOpt (P : IncSt → Prop) (hc : IncStepClosed P) :
    ∀ (st : IncSt) (oe : Option Expr), P st → P (incVisitOpt st oe)
  | st, none, hp => by simpa [incVisitOpt] using hp
  | st, some e, hp => by
    simp only [incVisitOpt]
    exact incPres P hc _ _ e hp

theorem incPresOpt2 (P : IncSt → Prop) (hc : IncStepClosed P) :
    ∀ (st : IncSt) (oe : Option Expr), P st → P (incVisitOpt2 st oe)
  | st, none, hp => by simpa [incVisitOpt2] using hp
  | st, some e, hp => by
    simp only [incVisitOpt2]
    exact incPres P hc _ _ e hp

theorem incPresArms (P : IncSt → Prop) (hc : IncStepClosed P) :
    ∀ (st : IncSt) (arms : List (List Pat × Option Expr × Expr)), P st →
      P (incVisitArms st arms)
  | st, [], hp => by simpa [incVisitArms] using hp
  | st, (ps, g, b) :: rest, hp => by
    simp only [incVisitArms]
    exact incPresArms P hc _ rest
      (incPres P hc _ _ b (incPresOpt P hc _ g hp))

end


/-- Lookup after writing the same key. -/
theorem lookupSt_setSt_self (l : List (Nat × VarState)) (id : Nat) (v : VarState) :
    lookupSt (setSt l id v) id = some v := by
  induction l with
  | nil => simp [setSt, lookupSt]
  | cons kv rest ih =>
    rcases kv with ⟨k, w⟩
    by_cases h : k = id <;> simp [setSt, lookupSt, h, ih]

/-- Lookup after writing a different key. -/
theorem lookupSt_setSt_ne (l : List (Nat × VarState)) (id id2 : Nat) (v : VarState)
    (h : id2 ≠ id) : lookupSt (setSt l id v) id2 = lookupSt l id2 := by
  have h2 : id ≠ id2 := Ne.symm h
  induction l with
  | nil => simp [setSt, lookupSt, h2]
  | cons kv rest ih =>
    rcases kv with ⟨k, w⟩
    by_cases hk : k = id
    · subst hk
      simp [setSt, lookupSt, h2]
    · simp [setSt, lookupSt, hk, ih]

/-- `DontWarn` absorbs every `IncrementVisitor` rule. -/
theorem incRule_dontwarn (d : Nat) (ctx2 : PCtx) :
    incRule .DontWarn d ctx2 = .DontWarn := by
  cases ctx2 with
  | assignOpLhsCtx op rhs =>
    by_cases h : op = BinOpK.add ∧ is_integer_literal rhs 1 = true <;> simp [incRule, h]
  | addrOfCtx m => cases m <;> simp [incRule]
  | _ => simp [incRule]

/-- C4: in the Increment Visitor, a compound `+= 1` at depth 0 moves
`Initial` to `IncrOnce`; any further candidate increment or one at positive
depth moves the state to `DontWarn`; a plain assignment or a mutable borrow
moves it to `DontWarn` from any state; a nested loop aborts the pass,
clearing all collected states, so an aborted run has no candidate and the
Explicit-Counter detector reports nothing. -/
theorem c4_increment_visitor :
    (∀ rhs : Expr, is_integer_literal rhs 1 = true →
      incRule .Initial 0 (.assignOpLhsCtx .add rhs) = .IncrOnce) ∧
    (∀ (s : VarState) (d : Nat) (rhs : Expr), is_integer_literal rhs 1 = true →
      ¬(s = .Initial ∧ d = 0) → incRule s d (.assignOpLhsCtx .add rhs) = .DontWarn) ∧
    (∀ (s : VarState) (d : Nat) (rhs : Expr),
      incRule s d (.assignLhsCtx rhs) = .DontWarn) ∧
    (∀ (s : VarState) (d : Nat), incRule s d (.addrOfCtx .mutb) = .DontWarn) ∧
    (∀ (st : IncSt) (ctx : PCtx) (e : Expr), st.done = false → is_loop e = true →
      incVisit st ctx e = ⟨[], st.depth, true⟩) ∧
    (∀ (body : Expr), (incVisit ⟨[], 0, false⟩ .noParentCtx body).done = true →
      (incVisit ⟨[], 0, false⟩ .noParentCtx body).states = []) ∧
    (∀ (body : Expr) (bs : List Stmt) (bt : Option Expr) (endId : Nat),
      (incVisit ⟨[], 0, false⟩ .noParentCtx body).done = true →
      check_for_loop_explicit_counter body bs bt endId = []) ∧
    incVisit ⟨[], 0, false⟩ .noParentCtx fxLoopBodyNested = ⟨[], 0, true⟩ := by
  have habort : ∀ (body : Expr), (incVisit ⟨[], 0, false⟩ .noParentCtx body).done = true →
      (incVisit ⟨[], 0, false⟩ .noParentCtx body).states = [] := by
    have hc : IncStepClosed (fun st => st.done = true → st.states = []) := by
      refine ⟨?_, ?_, ?_⟩
      · intro states depth id ctx2 _ h
        exact absurd h (by simp)
      · intro states depth _ _
        rfl
      · intro states depth done d h hd
        exact h hd
    intro body hdone
    exact incPres _ hc ⟨[], 0, false⟩ .noParentCtx body (by simp) hdone
  refine ⟨?_, ?_, ?_, ?_, ?_, habort, ?_, by decide⟩
  · intro rhs h
    simp [incRule, h]
  · intro s d rhs h hn
    cases s with
    | Initial =>
      cases d with
      | zero => exact absurd ⟨rfl, rfl⟩ hn
      | succ n => simp [incRule, h]
    | IncrOnce => simp [incRule, h]
    | Declared => simp [incRule, h]
    | Warn => simp [incRule, h]
    | DontWarn => simp [incRule, h]
  · intro s d rhs
    simp [incRule]
  · intro s d
    simp [incRule]
  · intro st ctx e hd hl
    cases e <;> simp [is_loop] at hl <;> rcases st with ⟨states, depth, done⟩ <;>
      simp at hd <;> subst hd <;> simp [incVisit]
  · intro body bs bt endId hdone
    simp [check_for_loop_explicit_counter, habort body hdone]

/-- Witness for C4: the `+= 1` transition at a concrete literal, a concrete
aborted pass (a body whose second statement is a nested `while`), and the
Explicit-Counter detector reporting nothing for it. -/
theorem c4_increment_visitor_witness :
    incRule .Initial 0 (.assignOpLhsCtx .add (.litInt 1)) = .IncrOnce ∧
    incVisit ⟨[(1, .IncrOnce)], 3, false⟩ .otherCtx
      (.whileE (.pathE .otherR "c" 1) (.blockE [] none)) = ⟨[], 3, true⟩ ∧
    check_for_loop_explicit_counter fxLoopBodyNested [fxDeclI0, fxForNode] none 7
      = [] := by
  refine ⟨c4_increment_visitor.1 (.litInt 1) (by decide), ?_, ?_⟩
  · exact c4_increment_visitor.2.2.2.2.1 ⟨[(1, .IncrOnce)], 3, false⟩ .otherCtx
      (.whileE (.pathE .otherR "c" 1) (.blockE [] none)) rfl (by decide)
  · exact c4_increment_visitor.2.2.2.2.2.2.1 fxLoopBodyNested [fxDeclI0, fxForNode]
      none 7 (by decide)

/-- `initVisit` from `DontWarn` is the identity (the visitor's first check). -/
theorem initVisit_dontwarn (st : InitSt) (ctx : PCtx) (e : Expr)
    (h : st.state = .DontWarn) : initVisit st ctx e = st := by
  cases e <;> try simp [initVisit, h]
  case pathE res nm segs => cases res <;> simp [initVisit, h]

/-- C9: the per-binding classification is monotone within one traversal.
In the Increment Visitor, a binding whose recorded state is `DontWarn` is
never re-mapped to any other state by a subsequent visit step (it either
stays `DontWarn` or the whole map is discarded by an abort); in the
Initialize Visitor, a visit step from `DontWarn` leaves the state
untouched, and a declaration step for a different binding (each binding's
declaration is a unique node, visited at most once) does too. -/
theorem c9_monotone :
    (∀ (st : IncSt) (ctx : PCtx) (e : Expr) (id : Nat),
      lookupSt st.states id = some .DontWarn →
      ∀ s' : VarState, lookupSt (incVisit st ctx e).states id = some s' →
        s' = .DontWarn) ∧
    (∀ (st : InitSt) (ctx : PCtx) (e : Expr), st.state = .DontWarn →
      (initVisit st ctx e).state = .DontWarn) ∧
    (∀ (st : InitSt) (pid : Nat) (p : Pat) (init : Option Expr),
      st.state = .DontWarn → pid ≠ st.varId →
      (initVisitDecl st pid p init).state = .DontWarn) := by
  have hinit : ∀ (st : InitSt) (ctx : PCtx) (e : Expr), st.state = .DontWarn →
      (initVisit st ctx e).state = .DontWarn := by
    intro st ctx e h
    rw [initVisit_dontwarn st ctx e h, h]
  refine ⟨?_, hinit, ?_⟩
  · intro st ctx e id hdw s' hs'
    have hc : IncStepClosed (fun st2 => lookupSt st2.states id = some .DontWarn ∨
        (st2.done = true ∧ lookupSt st2.states id = none)) := by
      refine ⟨?_, ?_, ?_⟩
      · intro states depth id2 ctx2 hp
        rcases hp with hp | hp
        · left
          by_cases hid : id2 = id
          · subst hid
            simp only at hp
            simp [lookupSt_setSt_self, hp, incRule_dontwarn]
          · simpa [lookupSt_setSt_ne states id2 id _ (Ne.symm hid)] using hp
        · exact absurd hp.1 (by simp)
      · intro states depth _
        right
        exact ⟨rfl, by simp [lookupSt]⟩
      · intro states depth done d hp
        exact hp
    have hres := incPres _ hc st ctx e (Or.inl hdw)
    rcases hres with hres | hres
    · rw [hs'] at hres
      exact (Option.some_inj.mp hres.symm).symm
    · rw [hs'] at hres
      exact absurd hres.2 (by simp)
  · intro st pid p init h hne
    cases init with
    | none => simpa [initVisitDecl, hne] using h
    | some i =>
      have : initVisitDecl st pid p (some i) = initVisit st .noParentCtx i := by
        simp [initVisitDecl, hne]
      rw [this]
      exact hinit st .noParentCtx i h

/-- Witness for C9 at concrete states: a `DontWarn` entry survives an
increment step on it, an initialize step on a tracked-variable write, and a
foreign declaration step. -/
theorem c9_monotone_witness :
    VarState.DontWarn = VarState.DontWarn ∧
    (initVisit ⟨7, 1, .DontWarn, some "i", 0, true⟩ (.assignLhsCtx (.litInt 3))
      fxI).state = .DontWarn ∧
    (initVisitDecl ⟨7, 1, .DontWarn, some "i", 0, true⟩ 2
      (.bindingPat 2 "j" none) (some (.litInt 0))).state = .DontWarn := by
  refine ⟨?_, ?_, ?_⟩
  · exact c9_monotone.1 ⟨[(1, .DontWarn)], 0, false⟩
      (.assignOpLhsCtx .add (.litInt 1)) fxI 1 (by decide) .DontWarn (by decide)
  · exact c9_monotone.2.1 ⟨7, 1, .DontWarn, some "i", 0, true⟩
      (.assignLhsCtx (.litInt 3)) fxI rfl
  · exact c9_monotone.2.2 ⟨7, 1, .DontWarn, some "i", 0, true⟩ 2
      (.bindingPat 2 "j" none) (some (.litInt 0)) rfl (by decide)

mutual

/-- Any property preserved by the four state operations of the
`InitializeVisitor` is preserved by the whole walk. -/
theorem initPres (P : InitSt → Prop) (hc : InitStepClosed P) :
    ∀ (st : InitSt) (ctx : PCtx) (e : Expr), P st → P (initVisit st ctx e)
  | ⟨eid, vid, s, n, d, pl⟩, ctx, e, hp => by
    by_cases h1 : s = VarState.DontWarn
    · rw [initVisit_dontwarn _ ctx e (by simpa using h1)]
      exact hp
    · cases e with
      | pathE res nm segs =>
        by_cases h3 : s = VarState.IncrOnce
        · subst h3
          cases res <;> simpa [initVisit, h1, isEndExpr] using hp
        · cases res with
          | localR id =>
            have hex : ∃ v, initVisit ⟨eid, vid, s, n, d, pl⟩ ctx
                (.pathE (.localR id) nm segs) = ⟨eid, vid, v, n, d, pl⟩ := by
              by_cases hid : id = vid
              · cases ctx with
                | assignOpLhsCtx op rhs =>
                  cases pl <;> simp [initVisit, h1, h3, isEndExpr, hid]
                | assignLhsCtx rhs =>
                  cases pl <;> simp [initVisit, h1, h3, isEndExpr, hid]
                | addrOfCtx m =>
                  cases m <;> cases pl <;> simp [initVisit, h1, h3, isEndExpr, hid]
                | indexCtx b =>
                  cases pl <;> simp [initVisit, h1, h3, isEndExpr, hid]
                | otherCtx =>
                  cases pl <;> simp [initVisit, h1, h3, isEndExpr, hid]
                | noParentCtx =>
                  cases pl <;> simp [initVisit, h1, h3, isEndExpr, hid]
              · cases ctx <;> cases pl <;>
                  simp [initVisit, h1, h3, isEndExpr, hid]
            rcases hex with ⟨v, hv⟩
            rw [hv]
            exact hc.2.1 eid vid s n d pl v h3 hp
          | upvarR id => simpa [initVisit, h1, h3, isEndExpr] using hp
          | staticR => simpa [initVisit, h1, h3, isEndExpr] using hp
          | constR => simpa [initVisit, h1, h3, isEndExpr] using hp
          | otherR => simpa [initVisit, h1, h3, isEndExpr] using hp
      | litInt k =>
        by_cases h3 : s = VarState.IncrOnce
        · subst h3
          simpa [initVisit, h1, isEndExpr] using hp
        · simpa [initVisit, h1, h3, isEndExpr] using hp
      | litOther =>
        by_cases h3 : s = VarState.IncrOnce
        · subst h3
          simpa [initVisit, h1, isEndExpr] using hp
        · simpa [initVisit, h1, h3, isEndExpr] using hp
      | assignE lhs rhs =>
        by_cases h3 : s = VarState.IncrOnce
        · subst h3
          simpa [initVisit, h1, isEndExpr] using hp
        · simp [initVisit, h1, h3, isEndExpr]
          exact initPres P hc _ _ rhs (initPres P hc _ _ lhs hp)
      | assignOpE op lhs rhs =>
        by_cases h3 : s = VarState.IncrOnce
        · subst h3
          simpa [initVisit, h1, isEndExpr] using hp
        · simp [initVisit, h1, h3, isEndExpr]
          exact initPres P hc _ _ rhs (initPres P hc _ _ lhs hp)
      | addrOfE m a =>
        by_cases h3 : s = VarState.IncrOnce
        · subst h3
          simpa [initVisit, h1, isEndExpr] using hp
        · simp [initVisit, h1, h3, isEndExpr]
          exact initPres P hc _ _ a hp
      | ifE c t els =>
        by_cases h3 : s = VarState.IncrOnce
        · subst h3
          simpa [initVisit, h1, isEndExpr] using hp
        · simp [initVisit, h1, h3, isEndExpr]
          exact hc.2.2.2 _ _ _ _ _ _ _ (initPresOpt P hc _ els
            (initPres P hc _ _ t (initPres P hc _ _ c
              (hc.2.2.2 eid vid s n d pl (d + 1) hp))))
      | matchE mid scrut arms src =>
        by_cases h2 : mid = eid
        · simp [initVisit, h1, isEndExpr, h2]
          exact hc.1 eid vid s n d pl hp
        · by_cases h3 : s = VarState.IncrOnce
          · subst h3
            simpa [initVisit, h1, isEndExpr, h2] using hp
          · simp [initVisit, h1, h3, isEndExpr, h2]
            exact hc.2.2.2 _ _ _ _ _ _ _ (initPresArms P hc _ arms
              (initPres P hc _ _ scrut (hc.2.2.2 eid vid s n d pl (d + 1) hp)))
      | loopE b =>
        by_cases h3 : s = VarState.IncrOnce
        · subst h3
          simpa [initVisit, h1, isEndExpr] using hp
        · cases pl with
          | true =>
            simp [initVisit, h1, h3, isEndExpr]
            exact initPres P hc _ _ b hp
          | false =>
            simp [initVisit, h1, h3, isEndExpr]
            exact hc.2.1 eid vid s n d false _ h3 hp
      | whileE c b =>
        by_cases h3 : s = VarState.IncrOnce
        · subst h3
          simpa [initVisit, h1, isEndExpr] using hp
        · cases pl with
          | true =>
            simp [initVisit, h1, h3, isEndExpr]
            exact initPres P hc _ _ b (initPres P hc _ _ c hp)
          | false =>
            simp [initVisit, h1, h3, isEndExpr]
            exact hc.2.1 eid vid s n d false _ h3 hp
      | indexE b i =>
        by_cases h3 : s = VarState.IncrOnce
        · subst h3
          simpa [initVisit, h1, isEndExpr] using hp
        · simp [initVisit, h1, h3, isEndExpr]
          exact initPres P hc _ _ i (initPres P hc _ _ b hp)
      | callE mname args =>
        by_cases h3 : s = VarState.IncrOnce
        · subst h3
          simpa [initVisit, h1, isEndExpr] using hp
        · simp [initVisit, h1, h3, isEndExpr]
          exact initPresList P hc _ args hp
      | rangeE lo hi lim =>
        by_cases h3 : s = VarState.IncrOnce
        · subst h3
          simpa [initVisit, h1, isEndExpr] using hp
        · simp [initVisit, h1, h3, isEndExpr]
          exact initPresOpt P hc _ hi (initPresOpt P hc _ lo hp)
      | blockE stmts tail =>
        by_cases h3 : s = VarState.IncrOnce
        · subst h3
          simpa [initVisit, h1, isEndExpr] using hp
        · simp [initVisit, h1, h3, isEndExpr]
          exact initPresOpt2 P hc _ tail (initPresStmts P hc _ stmts hp)

theorem initPresDecl (P : InitSt → Prop) (hc : InitStepClosed P) :
    ∀ (st : InitSt) (pid : Nat) (p : Pat) (init : Option Expr), P st →
      P (initVisitDecl st pid p init)
  | ⟨eid, vid, s, n, d, pl⟩, pid, p, init, hp => by
    by_cases hid : pid = vid
    · cases p with
      | bindingPat b nm sub =>
        cases init with
        | none =>
          simp [initVisitDecl, hid]
          exact hc.2.2.1 eid vid s n d pl nm _ hp
        | some i =>
          simp [initVisitDecl, hid]
          exact initPres P hc _ _ i (hc.2.2.1 eid vid s n d pl nm _ hp)
      | wildPat =>
        cases init with
        | none => simpa [initVisitDecl, hid] using hp
        | some i =>
          simp [initVisitDecl, hid]
          exact initPres P hc _ _ i hp
      | tuplePat ps =>
        cases init with
        | none => simpa [initVisitDecl, hid] using hp
        | some i =>
          simp [initVisitDecl, hid]
          exact initPres P hc _ _ i hp
      | tupleStructPat c a =>
        cases init with
        | none => simpa [initVisitDecl, hid] using hp
        | some i =>
          simp [initVisitDecl, hid]
          exact initPres P hc _ _ i hp
      | otherPat =>
        cases init with
        | none => simpa [initVisitDecl, hid] using hp
        | some i =>
          simp [initVisitDecl, hid]
          exact initPres P hc _ _ i hp
    · cases init with
      | none => simpa [initVisitDecl, hid] using hp
      | some i =>
        simp [initVisitDecl, hid]
        exact initPres P hc _ _ i hp

theorem initPresList (P : InitSt → Prop) (hc : InitStepClosed P) :
    ∀ (st : InitSt) (es : List Expr), P st → P (initVisitList st es)
  | st, [], hp => by simpa [initVisitList] using hp
  | st, e :: es, hp => by
    simp only [initVisitList]
    exact initPresList P hc _ es (initPres P hc _ _ e hp)

theorem initPresStmts (P : InitSt → Prop) (hc : InitStepClosed P) :
    ∀ (st : InitSt) (ss : List Stmt), P st → P (initVisitStmts st ss)
  | st, [], hp => by simpa [initVisitStmts] using hp
  | st, .declS pid p init :: ss, hp => by
    simp only [initVisitStmts]
    exact initPresStmts P hc _ ss (initPresDecl P hc _ pid p init hp)
  | st, .exprS e :: ss, hp => by
    simp only [initVisitStmts]
    exact initPresStmts P hc _ ss (initPres P hc _ _ e hp)

theorem initPresOpt (P : InitSt → Prop) (hc : InitStepClosed P) :
    ∀ (st : InitSt) (oe : Option Expr), P st → P (initVisitOpt st oe)
  | st, none, hp => by simpa [initVisitOpt] using hp
  | st, some e, hp => by
    simp only [initVisitOpt]
    exact initPres P hc _ _ e hp

theorem initPresOpt2 (P : InitSt → Prop) (hc : InitStepClosed P) :
    ∀ (st : InitSt) (oe : Option Expr), P st → P (initVisitOpt2 st oe)
  | st, none, hp => by simpa [initVisitOpt2] using hp
  | st, some e, hp => by
    simp only [initVisitOpt2]
    exact initPres P hc _ _ e hp

theorem initPresArms (P : InitSt → Prop) (hc : InitStepClosed P) :
    ∀ (st : InitSt) (arms : List (List Pat × Option Expr × Expr)), P st →
      P (initVisitArms st arms)
  | st, [], hp => by simpa [initVisitArms] using hp
  | st, (ps, g, b) :: rest, hp => by
    simp only [initVisitArms]
    exact initPresArms P hc _ rest
      (initPres P hc _ _ b (initPresOpt P hc _ g hp))

end

/-- C5: the Initialize Visitor sets `Warn` at the binding's declaration when
it is initialized to the literal 0 and `Declared` otherwise (recording the
name either way); any reference to the binding visited after the loop node
was reached degrades the state to `DontWarn`; the Explicit-Counter detector
fires for a candidate exactly when the final state is `Warn`; concretely,
`let mut i = 0` with `i += 1` in the body fires and reports `i`, `let mut
i = 1` does not fire, and an increment only inside a conditional does not
fire. -/
theorem c5_initialize_visitor :
    (∀ (st : InitSt) (b : Nat) (nm : String) (sub : Option Pat) (k : Int),
      (initVisitDecl st st.varId (.bindingPat b nm sub) (some (.litInt k))).state
          = (if k = 0 then .Warn else .Declared) ∧
      (initVisitDecl st st.varId (.bindingPat b nm sub) (some (.litInt k))).name
          = some nm) ∧
    (∀ (st : InitSt) (b : Nat) (nm : String) (sub : Option Pat),
      (initVisitDecl st st.varId (.bindingPat b nm sub) none).state = .Declared ∧
      (initVisitDecl st st.varId (.bindingPat b nm sub) none).name = some nm) ∧
    (∀ (st : InitSt) (ctx : PCtx) (nm2 : String) (segs : Nat),
      st.state ≠ .DontWarn → st.state ≠ .IncrOnce → st.pastLoop = true →
      (initVisit st ctx (.pathE (.localR st.varId) nm2 segs)).state = .DontWarn) ∧
    (∀ (endId varId : Nat) (bs : List Stmt) (bt : Option Expr),
      counterCandidateFires endId varId bs bt ≠ none ↔
      (initWalkBlock ⟨endId, varId, .IncrOnce, none, 0, false⟩ bs bt).state
        = .Warn) ∧
    check_for_loop_explicit_counter fxLoopBody [fxDeclI0, fxForNode] none 7
      = ["i"] ∧
    check_for_loop_explicit_counter fxLoopBody [fxDeclI1, fxForNode] none 7 = [] ∧
    check_for_loop_explicit_counter fxLoopBodyCond [fxDeclI0, fxForNode] none 7
      = [] := by
  refine ⟨?_, ?_, ?_, ?_, by decide, by decide, by decide⟩
  · intro st b nm sub k
    rcases st with ⟨eid, vid, s, n, d, pl⟩
    by_cases hk : k = 0 <;>
      simp [initVisitDecl, initVisit, is_integer_literal, isEndExpr, hk]
  · intro st b nm sub
    rcases st with ⟨eid, vid, s, n, d, pl⟩
    simp [initVisitDecl]
  · intro st ctx nm2 segs h1 h3 hpl
    rcases st with ⟨eid, vid, s, n, d, pl⟩
    simp only at h1 h3 hpl
    subst hpl
    cases ctx with
    | addrOfCtx m => cases m <;> simp [initVisit, h1, h3, isEndExpr]
    | _ => simp [initVisit, h1, h3, isEndExpr]
  · intro endId varId bs bt
    constructor
    · intro h
      by_cases hw : (initWalkBlock ⟨endId, varId, .IncrOnce, none, 0, false⟩
          bs bt).state = .Warn
      · exact hw
      · exact absurd (by simp [counterCandidateFires, hw]) h
    · intro hw
      have hc : InitStepClosed (fun st => st.state = .IncrOnce ∨ st.name ≠ none) := by
        refine ⟨?_, ?_, ?_, ?_⟩
        · intro eid vid s n d pl hp
          exact hp
        · intro eid vid s n d pl v hs hp
          rcases hp with hp | hp
          · exact absurd hp hs
          · exact Or.inr hp
        · intro eid vid s n d pl nm v _
          simp
        · intro eid vid s n d pl d2 hp
          exact hp
      have hinv := initPresOpt2 _ hc _ bt (initPresStmts _ hc
        ⟨endId, varId, .IncrOnce, none, 0, false⟩ bs (Or.inl rfl))
      rcases hinv with hinv | hinv
      · rw [initWalkBlock] at hw
        rw [hw] at hinv
        exact absurd hinv (by simp)
      · rw [initWalkBlock] at hw
        simp only [counterCandidateFires, initWalkBlock, hw, if_pos]
        simpa using hinv

/-- Witness for C5: the declaration transitions at literal 0 and literal 1,
a post-loop write degrading to `DontWarn`, and the fire condition at the
concrete enclosing block of the spec example. -/
theorem c5_initialize_visitor_witness :
    (initVisitDecl ⟨7, 1, .IncrOnce, none, 0, false⟩ 1 (.bindingPat 1 "i" none)
      (some (.litInt 0))).state = .Warn ∧
    (initVisit ⟨7, 1, .Warn, some "i", 0, true⟩ (.assignLhsCtx (.litInt 5))
      (.pathE (.localR 1) "i" 1)).state = .DontWarn ∧
    counterCandidateFires 7 1 [fxDeclI0, fxForNode] none ≠ none := by
  refine ⟨?_, ?_, ?_⟩
  · have h := (c5_initialize_visitor.1 ⟨7, 1, .IncrOnce, none, 0, false⟩ 1 "i"
      none 0).1
    simpa using h
  · exact c5_initialize_visitor.2.2.1 ⟨7, 1, .Warn, some "i", 0, true⟩
      (.assignLhsCtx (.litInt 5)) "i" 1 (by decide) (by decide) rfl
  · exact (c5_initialize_visitor.2.2.2.1 7 1 [fxDeclI0, fxForNode] none).mpr
      (by decide)

/-- C6 counterexample: the While-Let-On-Iterator detector fires on a
while-let whose iterator expression is the method call `mk()` — not a bare
single-segment variable (`var_def_id` cannot resolve it to a local) —
refuting the claim that a non-variable iterator expression suppresses the
finding. -/
theorem c6_while_let_counterexample :
    check_while_let_on_iterator fxCtx fxWhileLetNonVar
      = some ("for P in S \x7b .. \x7d") ∧
    var_def_id (.callE "mk" []) = none := by
  exact ⟨by decide, by decide⟩

/-- C6 (amended): the detector fires on a while-style desugared match only
when the scrutinee is a `next` call on an Iterator-capable receiver matched
against the `Some` constructor and the after-loop usage check is negative;
that check suppresses the finding exactly when the iterator expression
resolves to a local variable whose enclosing-block forward scan finds a
reference after the loop — an iterator expression that does not resolve to
a local variable is never suppressed. -/
theorem c6_while_let_amended :
    (∀ (ctx : LintCtx) (iterExpr : Expr), var_def_id iterExpr = none →
      is_iterator_used_after_while_let ctx iterExpr = false) ∧
    (∀ (ctx : LintCtx) (iterExpr : Expr) (did : Nat) (evs : List ScanEvent),
      var_def_id iterExpr = some did → ctx.enclosingScan did = some evs →
      is_iterator_used_after_while_let ctx iterExpr = usedAfterGo did false evs) ∧
    (∀ (ctx : LintCtx) (mid : Nat) (mname : String) (iterExpr : Expr)
        (margs : List Expr) (ctor : String) (pargs prest : List Pat)
        (g : Option Expr) (b : Expr)
        (restArms : List (List Pat × Option Expr × Expr)),
      is_iterator_used_after_while_let ctx iterExpr = true →
      check_while_let_on_iterator ctx (.matchE mid (.callE mname (iterExpr :: margs))
        ((.tupleStructPat ctor pargs :: prest, g, b) :: restArms) .whileLetSrc)
        = none) ∧
    (∀ (ctx : LintCtx) (mid : Nat) (mname : String) (iterExpr : Expr)
        (margs : List Expr) (ctor : String) (pargs prest : List Pat)
        (g : Option Expr) (b : Expr)
        (restArms : List (List Pat × Option Expr × Expr)) (s : String),
      check_while_let_on_iterator ctx (.matchE mid (.callE mname (iterExpr :: margs))
        ((.tupleStructPat ctor pargs :: prest, g, b) :: restArms) .whileLetSrc)
        = some s →
      mname = "next" ∧ ctx.isIteratorNext (.callE mname (iterExpr :: margs)) = true ∧
        ctor = "Some" ∧ is_iterator_used_after_while_let ctx iterExpr = false) ∧
    check_while_let_on_iterator fxCtxScan fxWhileLetVar = none ∧
    check_while_let_on_iterator fxCtx fxWhileLetVar
      = some ("for P in S \x7b .. \x7d") := by
  refine ⟨?_, ?_, ?_, ?_, by decide, by decide⟩
  · intro ctx iterExpr h
    simp [is_iterator_used_after_while_let, h]
  · intro ctx iterExpr did evs h1 h2
    simp [is_iterator_used_after_while_let, h1, h2]
  · intro ctx mid mname iterExpr margs ctor pargs prest g b restArms h
    simp [check_while_let_on_iterator, h]
  · intro ctx mid mname iterExpr margs ctor pargs prest g b restArms s h
    simp only [check_while_let_on_iterator] at h
    split at h
    · rename_i hcond
      exact ⟨hcond.1, hcond.2.1, hcond.2.2.1, by simpa using hcond.2.2.2⟩
    · exact absurd h (by simp)

/-- C7 counterexample: with both tuple sides wildcards, the Map-Destructure
detector still fires (suggesting `.values()`, the key side being checked
first), refuting the claim that it fires only when exactly one side is a
wildcard. -/
theorem c7_map_kv_counterexample :
    check_for_loop_over_map_kv fxCtx (.tuplePat [.wildPat, .wildPat])
      (.addrOfE .imm fxMap) (.blockE [] none) = some ("value", "P", "M.values()") ∧
    pat_is_wild .wildPat (.blockE [] none) = true ∧
    pat_is_wild .wildPat (.blockE [] none) = true := by
  exact ⟨by decide, by decide, by decide⟩

/-- C7 (amended): the detector fires on a 2-tuple pattern over a Map-typed
iterable when at least one side is a wildcard or an unused
underscore-prefixed binding — the key side is checked first and suggests
`.values()`, otherwise a wild value side suggests `.keys()`; an immutable
borrow is unwrapped for the rewrite target, a mutable borrow suppresses the
finding, and an underscore-prefixed binding referenced in the body is not
wild (so if the other side is not wild either, there is no finding). -/
theorem c7_map_kv_amended :
    (∀ (ctx : LintCtx) (p0 p1 : Pat) (arg body : Expr)
        (r : String × String × String),
      check_for_loop_over_map_kv ctx (.tuplePat [p0, p1]) arg body = some r →
      pat_is_wild p0 body = true ∨ pat_is_wild p1 body = true) ∧
    (∀ (ctx : LintCtx) (p0 p1 : Pat) (inner body : Expr),
      pat_is_wild p0 body = true → ctx.isMapTy inner = true →
      check_for_loop_over_map_kv ctx (.tuplePat [p0, p1]) (.addrOfE .imm inner) body
        = some ("value", ctx.patSnip p1, ctx.snipMaybePar inner ++ ".values()")) ∧
    (∀ (ctx : LintCtx) (p0 p1 : Pat) (inner body : Expr),
      pat_is_wild p0 body = false → pat_is_wild p1 body = true →
      ctx.isMapTy inner = true →
      check_for_loop_over_map_kv ctx (.tuplePat [p0, p1]) (.addrOfE .imm inner) body
        = some ("key", ctx.patSnip p0, ctx.snipMaybePar inner ++ ".keys()")) ∧
    (∀ (ctx : LintCtx) (p0 p1 : Pat) (x body : Expr),
      check_for_loop_over_map_kv ctx (.tuplePat [p0, p1]) (.addrOfE .mutb x) body
        = none) ∧
    (∀ (b : Nat) (nm : String) (body : Expr),
      usedIn nm body = true → pat_is_wild (.bindingPat b nm none) body = false) ∧
    (∀ (ctx : LintCtx) (p0 p1 : Pat) (arg body : Expr),
      pat_is_wild p0 body = false → pat_is_wild p1 body = false →
      check_for_loop_over_map_kv ctx (.tuplePat [p0, p1]) arg body = none) := by
  refine ⟨?_, ?_, ?_, ?_, ?_, ?_⟩
  · intro ctx p0 p1 arg body r h
    by_cases h0 : pat_is_wild p0 body = true
    · exact Or.inl h0
    · by_cases h1 : pat_is_wild p1 body = true
      · exact Or.inr h1
      · exact absurd h (by simp [check_for_loop_over_map_kv, h0, h1])
  · intro ctx p0 p1 inner body h0 hm
    have hs : ∀ s : String, s ++ "." ++ "value" ++ "s()" = s ++ ".values()" := by
      intro s
      rw [String.append_assoc, String.append_assoc]
      congr 1
    simp [check_for_loop_over_map_kv, h0, hm, hs]
  · intro ctx p0 p1 inner body h0 h1 hm
    have hs : ∀ s : String, s ++ "." ++ "key" ++ "s()" = s ++ ".keys()" := by
      intro s
      rw [String.append_assoc, String.append_assoc]
      congr 1
    simp [check_for_loop_over_map_kv, h0, h1, hm, hs]
  · intro ctx p0 p1 x body
    by_cases h0 : pat_is_wild p0 body = true <;>
      by_cases h1 : pat_is_wild p1 body = true <;>
        simp [check_for_loop_over_map_kv, h0, h1]
  · intro b nm body hu
    simp [pat_is_wild, hu]
  · intro ctx p0 p1 arg body h0 h1
    simp [check_for_loop_over_map_kv, h0, h1]

/-- Witness for C7 at the spec's examples: `for (_, v) in &map` suggests
`.values()`; `for (k, _) in &map` (with `k` a normal binding and the value
side a wildcard) suggests `.keys()`; `for (k, v) in &mut map` produces no
finding; an underscore binding referenced in the body is not wild, and with
the other side not wild there is no finding. -/
theorem c7_map_kv_witness :
    check_for_loop_over_map_kv fxCtx (.tuplePat [.wildPat, .bindingPat 5 "v" none])
      (.addrOfE .imm fxMap) (.blockE [] none)
      = some ("value", "P", "M" ++ ".values()") ∧
    check_for_loop_over_map_kv fxCtx (.tuplePat [.bindingPat 5 "k" none, .wildPat])
      (.addrOfE .imm fxMap)
      (.blockE [.exprS (.callE "f" [.pathE (.localR 5) "k" 1])] none)
      = some ("key", "P", "M" ++ ".keys()") ∧
    check_for_loop_over_map_kv fxCtx (.tuplePat [.bindingPat 5 "k" none, .wildPat])
      (.addrOfE .mutb fxMap) (.blockE [] none) = none ∧
    pat_is_wild (.bindingPat 6 "_u" none)
      (.blockE [.exprS (.callE "f" [.pathE (.localR 6) "_u" 1])] none) = false ∧
    check_for_loop_over_map_kv fxCtx
      (.tuplePat [.bindingPat 6 "_u" none, .bindingPat 5 "v" none])
      (.addrOfE .imm fxMap)
      (.blockE [.exprS (.callE "f" [.pathE (.localR 6) "_u" 1])] none) = none := by
  refine ⟨?_, ?_, ?_, ?_, ?_⟩
  · exact c7_map_kv_amended.2.1 fxCtx .wildPat (.bindingPat 5 "v" none) fxMap
      (.blockE [] none) (by decide) rfl
  · exact c7_map_kv_amended.2.2.1 fxCtx (.bindingPat 5 "k" none) .wildPat fxMap
      (.blockE [.exprS (.callE "f" [.pathE (.localR 5) "k" 1])] none)
      (by decide) (by decide) rfl
  · exact c7_map_kv_amended.2.2.2.1 fxCtx (.bindingPat 5 "k" none) .wildPat fxMap
      (.blockE [] none)
  · exact c7_map_kv_amended.2.2.2.2.1 6 "_u"
      (.blockE [.exprS (.callE "f" [.pathE (.localR 6) "_u" 1])] none) (by decide)
  · exact c7_map_kv_amended.2.2.2.2.2 fxCtx (.bindingPat 6 "_u" none)
      (.bindingPat 5 "v" none) (.addrOfE .imm fxMap)
      (.blockE [.exprS (.callE "f" [.pathE (.localR 6) "_u" 1])] none)
      (by decide) (by decide)

/-- Witness for C6 (amended) at concrete inputs: a non-variable iterator is
never suppressed; a local iterator's suppression equals the forward scan; a
reused local iterator suppresses the finding; the firing on `fxWhileLetVar`
implies the negative usage check. -/
theorem c6_while_let_amended_witness :
    is_iterator_used_after_while_let fxCtx (.callE "mk" []) = false ∧
    is_iterator_used_after_while_let fxCtxScan (.pathE (.localR 4) "it" 1)
      = usedAfterGo 4 false [.iterOccEv, .refEv (some 4)] ∧
    check_while_let_on_iterator fxCtxScan
      (.matchE 12 (.callE "next" [.pathE (.localR 4) "it" 1])
        [([.tupleStructPat "Some" [.bindingPat 8 "x" none]], none, .litOther)]
        .whileLetSrc) = none ∧
    is_iterator_used_after_while_let fxCtx (.pathE (.localR 4) "it" 1) = false := by
  refine ⟨?_, ?_, ?_, ?_⟩
  · exact c6_while_let_amended.1 fxCtx (.callE "mk" []) rfl
  · exact c6_while_let_amended.2.1 fxCtxScan (.pathE (.localR 4) "it" 1) 4
      [.iterOccEv, .refEv (some 4)] rfl rfl
  · exact c6_while_let_amended.2.2.1 fxCtxScan 12 "next" (.pathE (.localR 4) "it" 1)
      [] "Some" [.bindingPat 8 "x" none] [] none .litOther [] (by decide)
  · exact (c6_while_let_amended.2.2.2.1 fxCtx 12 "next" (.pathE (.localR 4) "it" 1)
      [] "Some" [.bindingPat 8 "x" none] [] none .litOther []
      "for P in S \x7b .. \x7d" (by decide)).2.2.2

/-- C8 counterexample: for `for i in 0.. { v[i]; }` (a range with a known
start and no end bound) the Range-Index suggestion omits `.take(..)` even
though there is no `len()` end bound, refuting the "omits `.take(n)`
exactly when the end bound is a `len()` call" biconditional. -/
theorem c8_range_suggestion_counterexample :
    check_for_loop_range fxCtx (.bindingPat 1 "i" none)
      (.rangeE (some (.litInt 0)) none .halfOpen) fxBodyIdx
      = some (false, "<item>", "&v") ∧
    rangeTake fxCtx none .halfOpen "v" = "" ∧
    higher_range (.rangeE (some (.litInt 0)) none .halfOpen)
      = some ⟨some (.litInt 0), none, .halfOpen⟩ := by
  exact ⟨by decide, by decide, rfl⟩

/-- C8 (amended): when Range-Index fires, the rewrite omits `.skip(n)`
exactly when the start is the literal 0; it omits `.take(n)` exactly when
the range has no end bound or the end bound is a `len()` call on the
indexed container; an inclusive range appends the textual `+ 1` to the
user's end expression; a non-index use of the induction variable switches
to the `.iter().enumerate()` form with the pattern re-bound as a pair, and
otherwise the suggestion is `&container` when the start is 0 and no take is
needed, or `.iter()` with the take/skip fragments. -/
theorem c8_range_suggestion_amended :
    (∀ (ctx : LintCtx) (lo : Expr),
      rangeSkip ctx lo = "" ↔ is_integer_literal lo 0 = true) ∧
    (∀ (ctx : LintCtx) (hi : Option Expr) (lim : RangeLim) (nm : String),
      rangeTake ctx hi lim nm = "" ↔
        (hi = none ∨ ∃ e, hi = some e ∧ is_len_call e nm = true)) ∧
    (∀ (ctx : LintCtx) (e : Expr) (nm : String), is_len_call e nm = false →
      rangeTake ctx (some e) .closed nm = ".take(" ++ ctx.snip e ++ " + 1)") ∧
    (∀ (ctx : LintCtx) (pid : Nat) (nm : String) (sub : Option Pat) (lo : Expr)
        (hi : Option Expr) (lim : RangeLim) (body : Expr) (iname : String)
        (iext : Option Nat),
      (varVisit ctx.varScope pid ⟨[], false⟩ .noParentCtx body).indexed
          = [(iname, iext)] →
      (match iext with
       | some x => ctx.isSubscopeOf x (ctx.varScope pid)
       | none => false) = false →
      (varVisit ctx.varScope pid ⟨[], false⟩ .noParentCtx body).nonindex = true →
      check_for_loop_range ctx (.bindingPat pid nm sub) (.rangeE (some lo) hi lim)
          body =
        some (true, "(" ++ nm ++ ", <item>)",
          iname ++ ".iter().enumerate()" ++ rangeTake ctx hi lim iname
            ++ rangeSkip ctx lo)) ∧
    (∀ (ctx : LintCtx) (pid : Nat) (nm : String) (sub : Option Pat) (lo : Expr)
        (hi : Option Expr) (lim : RangeLim) (body : Expr) (iname : String)
        (iext : Option Nat),
      (varVisit ctx.varScope pid ⟨[], false⟩ .noParentCtx body).indexed
          = [(iname, iext)] →
      (match iext with
       | some x => ctx.isSubscopeOf x (ctx.varScope pid)
       | none => false) = false →
      (varVisit ctx.varScope pid ⟨[], false⟩ .noParentCtx body).nonindex = false →
      check_for_loop_range ctx (.bindingPat pid nm sub) (.rangeE (some lo) hi lim)
          body =
        some (false, "<item>",
          if is_integer_literal lo 0 = true ∧ rangeTake ctx hi lim iname = ""
          then "&" ++ iname
          else iname ++ ".iter()" ++ rangeTake ctx hi lim iname
            ++ rangeSkip ctx lo)) ∧
    check_for_loop_range fxCtx (.bindingPat 1 "i" none) fxArgLen fxBodyIdx
      = some (false, "<item>", "&v") ∧
    check_for_loop_range fxCtx (.bindingPat 1 "i" none) fxArgLen fxBodyIdxPlus
      = some (true, "(i, <item>)", "v.iter().enumerate()") := by
  have hlen : ∀ (s : String), (".skip(" ++ s ++ ")" : String) ≠ "" := by
    intro s heq
    have := congrArg String.length heq
    simp [String.length_append] at this
    exact absurd this.1.1 (by decide)
  have hlen2 : ∀ (s t : String), (".take(" ++ s ++ t : String) ≠ "" := by
    intro s t heq
    have := congrArg String.length heq
    simp [String.length_append] at this
    exact absurd this.1.1 (by decide)
  refine ⟨?_, ?_, ?_, ?_, ?_, by decide, by decide⟩
  · intro ctx lo
    by_cases h : is_integer_literal lo 0 = true <;> simp [rangeSkip, h]
    exact hlen (ctx.snip lo)
  · intro ctx hi lim nm
    cases hi with
    | none => simp [rangeTake]
    | some e =>
      by_cases h : is_len_call e nm = true
      · simp [rangeTake, h]
      · cases lim <;> simp [rangeTake, h] <;>
          first
            | exact fun heq => absurd heq (hlen2 (ctx.snip e) ")")
            | exact fun heq => absurd heq (hlen2 (ctx.snip e) " + 1)")
  · intro ctx e nm h
    simp [rangeTake, h]
  · intro ctx pid nm sub lo hi lim body iname iext hidx hsub hni
    simp [check_for_loop_range, higher_range, hidx, hsub, hni, rangeSkip, rangeTake]
  · intro ctx pid nm sub lo hi lim body iname iext hidx hsub hni
    simp [check_for_loop_range, higher_range, hidx, hsub, hni, rangeSkip, rangeTake]

/-- Witness for C8 at concrete ranges: skip/take omission, the inclusive
`+ 1`, and the two composed suggestion forms of the spec example. -/
theorem c8_range_suggestion_witness :
    (rangeSkip fxCtx (.litInt 0) = "" ↔ is_integer_literal (.litInt 0) 0 = true) ∧
    (rangeTake fxCtx (some (Expr.callE "len" [fxV])) .halfOpen "v" = "" ↔
      (some (Expr.callE "len" [fxV]) = none ∨
        ∃ e, some (Expr.callE "len" [fxV]) = some e ∧ is_len_call e "v" = true)) ∧
    rangeTake fxCtx (some (.litInt 10)) .closed "v" = ".take(" ++ "S" ++ " + 1)" ∧
    check_for_loop_range fxCtx (.bindingPat 1 "i" none) fxArgLen fxBodyIdxPlus
      = some (true, "(" ++ "i" ++ ", <item>)",
          "v" ++ ".iter().enumerate()" ++ rangeTake fxCtx (some (.callE "len" [fxV]))
            .halfOpen "v" ++ rangeSkip fxCtx (.litInt 0)) ∧
    check_for_loop_range fxCtx (.bindingPat 1 "i" none) fxArgLen fxBodyIdx
      = some (false, "<item>",
          if is_integer_literal (.litInt 0) 0 = true ∧
            rangeTake fxCtx (some (.callE "len" [fxV])) .halfOpen "v" = ""
          then "&" ++ "v"
          else "v" ++ ".iter()" ++ rangeTake fxCtx (some (.callE "len" [fxV]))
            .halfOpen "v" ++ rangeSkip fxCtx (.litInt 0)) := by
  refine ⟨?_, ?_, ?_, ?_, ?_⟩
  · exact c8_range_suggestion_amended.1 fxCtx (.litInt 0)
  · exact c8_range_suggestion_amended.2.1 fxCtx (some (.callE "len" [fxV]))
      .halfOpen "v"
  · exact c8_range_suggestion_amended.2.2.1 fxCtx (.litInt 10) "v" (by decide)
  · exact c8_range_suggestion_amended.2.2.2.1 fxCtx 1 "i" none (.litInt 0)
      (some (.callE "len" [fxV])) .halfOpen fxBodyIdxPlus "v" (some 2)
      (by decide) (by decide) (by decide)
  · exact c8_range_suggestion_amended.2.2.2.2.1 fxCtx 1 "i" none (.litInt 0)
      (some (.callE "len" [fxV])) .halfOpen fxBodyIdx "v" (some 2)
      (by decide) (by decide) (by decide)

end Clippy
